import Mathlib

/-!
# Verification of the IntelliNote math-input pipeline

A shallow embedding, over `List Char`, of the string-processing core of
`src/server/fast_math_solver.py` and `src/server/equation_classifier.py`:
the symbol normalizer (`_clean_latex`, `_convert_unicode_to_latex`), the
structural validator (`_validate_equation`), the problem-type classifier
(`_detect_problem_type`, `_calculate_confidence`), bound extraction
(`_extract_limits`), the calculus router (`solve_calculus`), the
division-by-zero guard of `solve_equation`, the equals-sign preprocessing
of `fast_solve`, and the integration-by-parts heuristic.

Python strings are modelled as `List Char`.  Regular-expression searches
are modelled either by bespoke scanners that reproduce the exact
leftmost-match semantics of the specific pattern, or by a small
backtracking matcher over an atom language (`RAtom`) that covers the
constructs used by the source patterns.  Recursions that do not decrease
structurally carry an explicit fuel argument; the fuel supplied by the
wrappers (the input length plus a pattern-size bound) always suffices,
and exhaustion returns a safe default.

External collaborators (SymPy parsing / symbolic computation) are out of
scope for the repository per its spec; where the control flow of the
embedded code depends on them they appear as explicit oracle parameters,
and SymPy expressions are modelled by the small `Expr` type together with
the handful of SymPy predicates (`is_Mul`, `args`, `has`,
`is_polynomial`, `is_Symbol`, `str`) that the source inspects.
-/

namespace IntelliNote

/-- Python strings, modelled as lists of characters. -/
abbrev Str := List Char

/-- Shorthand turning a Lean string literal into the model type. -/
def S (s : String) : Str := s.data

/-- Python `str.isspace`-style whitespace, the set matched by `\s`. -/
def pyWs (c : Char) : Bool :=
  c = ' ' || c = '\t' || c = '\n' || c = '\r' || c = '\x0b' || c = '\x0c'

/-- Python's substring test `pat in s`. -/
def containsSub (pat : Str) : Str → Bool
  | [] => pat.isPrefixOf []
  | c :: rest => pat.isPrefixOf (c :: rest) || containsSub pat rest

/-- Python `str.replace` (all non-overlapping occurrences, left to right),
with explicit fuel; fuel equal to the input length always suffices. -/
def pyReplaceF (pat rep : Str) : Nat → Str → Str
  | _, [] => []
  | 0, s => s
  | Nat.succ n, c :: rest =>
    if pat ≠ [] ∧ pat.isPrefixOf (c :: rest) then
      rep ++ pyReplaceF pat rep n ((c :: rest).drop pat.length)
    else
      c :: pyReplaceF pat rep n rest

/-- Python `str.replace`. -/
def pyReplace (pat rep s : Str) : Str := pyReplaceF pat rep s.length s

/-- A Python loop `for pat, rep in table.items(): text = text.replace(pat, rep)`
(dict iteration follows insertion order). -/
def applyTable (table : List (Str × Str)) (s : Str) : Str :=
  table.foldl (fun acc pr => pyReplace pr.1 pr.2 acc) s

/-- Trailing-whitespace strip (the right half of Python `str.strip`). -/
def pyRStrip : Str → Str
  | [] => []
  | c :: rest =>
    match pyRStrip rest with
    | [] => if pyWs c then [] else [c]
    | t => c :: t

/-- Python `str.strip()`. -/
def pyStrip (s : Str) : Str := (pyRStrip s).dropWhile pyWs

/-- Python `str.lower()`; non-ASCII letters are left unchanged, which agrees
with Python on every string this development evaluates. -/
def pyLower (s : Str) : Str := s.map Char.toLower

/-- Remove all spaces: Python `str.replace(' ', '')`. -/
def removeSpaces (s : Str) : Str := s.filter (fun c => c ≠ ' ')

/-- Core of `' '.join(s.split())`: collapse whitespace runs to single spaces
and drop a trailing run (the input is assumed already left-stripped). -/
def wsCollapse : Str → Str
  | [] => []
  | [c] => if pyWs c then [] else [c]
  | c1 :: c2 :: rest =>
    if pyWs c1 then
      (if pyWs c2 then wsCollapse (c2 :: rest) else ' ' :: wsCollapse (c2 :: rest))
    else
      c1 :: wsCollapse (c2 :: rest)

/-- Python `' '.join(s.split())`. -/
def wsJoin (s : Str) : Str := wsCollapse (s.dropWhile pyWs)

/-- `re.sub(r'(\d)([a-zA-Z])', r'\1*\2', s)`: insert explicit multiplication
between a digit and a following letter (`_clean_latex`, fast_math_solver.py
line 1929).  `re.sub` resumes scanning after each replacement. -/
def digitLetterSub : Str → Str
  | [] => []
  | [c] => [c]
  | c1 :: c2 :: rest =>
    if c1.isDigit ∧ c2.isAlpha then
      c1 :: '*' :: c2 :: digitLetterSub rest
    else
      c1 :: digitLetterSub (c2 :: rest)

/-! ## A small regular-expression matcher

Atoms cover the constructs appearing in the source patterns: literal
characters, character classes, Kleene star over a class, word boundaries
(`\b`), end anchors (`$`), and alternation.  `matchAtomsF` decides whether
some prefix of the input can be matched (the semantics of a successful
`re.search` attempt at a fixed position); `searchR` tries every start
position, left to right, exactly as `re.search` does.  All uses in this
file only need the existence of a match, never the matched groups. -/

inductive RAtom where
  | lit (c : Char)
  | cls (p : Char → Bool)
  | star (p : Char → Bool)
  | bnd
  | eol
  | alt (a b : List RAtom)

/-- Python `\w` (ASCII view): letters, digits, underscore. -/
def isWordCh (c : Char) : Bool := c.isAlphanum || c = '_'

/-- Word-character test on an optional neighbour (none = string edge). -/
def wordOpt : Option Char → Bool
  | none => false
  | some c => isWordCh c

mutual
/-- Size of an atom, counting nested alternatives; used only to compute a
sufficient fuel bound for the matcher. -/
def asize : RAtom → Nat
  | .alt a b => 1 + asizeL a + asizeL b
  | _ => 1

/-- Total size of an atom list. -/
def asizeL : List RAtom → Nat
  | [] => 0
  | a :: as => asize a + asizeL as
end

/-- Backtracking matcher: can `atoms` match some prefix of `s`?  `prev` is
the character just before the current position (for `\b`).  Fuel
`s.length + asizeL atoms + 1` always suffices, since every recursive call
shrinks `s.length + asizeL atoms`. -/
def matchAtomsF : Nat → Option Char → List RAtom → Str → Bool
  | 0, _, _, _ => false
  | Nat.succ _, _, [], _ => true
  | Nat.succ n, _, .lit c :: as, c' :: rest => c' = c && matchAtomsF n (some c') as rest
  | Nat.succ _, _, .lit _ :: _, [] => false
  | Nat.succ n, _, .cls p :: as, c' :: rest => p c' && matchAtomsF n (some c') as rest
  | Nat.succ _, _, .cls _ :: _, [] => false
  | Nat.succ n, prev, .star p :: as, s =>
    matchAtomsF n prev as s ||
    (match s with
     | c' :: rest => p c' && matchAtomsF n (some c') (.star p :: as) rest
     | [] => false)
  | Nat.succ n, prev, .bnd :: as, s =>
    (wordOpt prev != wordOpt s.head?) && matchAtomsF n prev as s
  | Nat.succ n, prev, .eol :: as, s =>
    (decide (s = []) || decide (s = ['\n'])) && matchAtomsF n prev as s
  | Nat.succ n, prev, .alt a b :: as, s =>
    matchAtomsF n prev (a ++ as) s || matchAtomsF n prev (b ++ as) s

/-- Try a match at every position, left to right. -/
def searchAux (atoms : List RAtom) (fuel : Nat) : Option Char → Str → Bool
  | prev, [] => matchAtomsF fuel prev atoms []
  | prev, c :: rest =>
    matchAtomsF fuel prev atoms (c :: rest) || searchAux atoms fuel (some c) rest

/-- `re.search(pattern, s)` viewed as a boolean. -/
def searchR (atoms : List RAtom) (s : Str) : Bool :=
  searchAux atoms (s.length + asizeL atoms + 1) none s

/-- Literal-run helper for building patterns. -/
def rlits (s : String) : List RAtom := s.data.map RAtom.lit

/-- `p+` as atoms. -/
def rplus (p : Char → Bool) : List RAtom := [.cls p, .star p]

/-- `p?` as atoms. -/
def ropt (p : Char → Bool) : List RAtom := [.alt [.cls p] []]

/-- Lower-case ASCII letter, the class `[a-z]`. -/
def lcLetter (c : Char) : Bool := 'a' ≤ c && c ≤ 'z'

/-- ASCII letter, the class `[a-zA-Z]`. -/
def anyLetter (c : Char) : Bool := c.isAlpha

/-- `.` without `re.DOTALL`: any character except a newline. -/
def anyNoNl (c : Char) : Bool := c ≠ '\n'

/-- `.` under `re.DOTALL`: any character. -/
def anyCh (_ : Char) : Bool := true

/-- `\S`: non-whitespace. -/
def nonWs (c : Char) : Bool := !pyWs c

/-- `[^}]`. -/
def notRBrace (c : Char) : Bool := c ≠ '}'

/-! ## A generic `re.sub` scanner

`rewriteAllF tm` walks the string left to right.  At each position the
rule-specific matcher `tm` either reports a match — the replacement text
together with `extra` such that the match consumed `extra + 1` input
characters — or fails, in which case one character is emitted and
scanning resumes at the next position, exactly as `re.sub` does.  `prev`
tracks the previous input character (needed by `\b` rules).  Fuel equal
to the input length always suffices because each step consumes at least
one character; on exhaustion the remaining input is returned unchanged. -/
def rewriteAllF (tm : Option Char → Str → Option (Str × Nat)) :
    Nat → Option Char → Str → Str
  | 0, _, s => s
  | Nat.succ _, _, [] => []
  | Nat.succ n, prev, c :: rest =>
    match tm prev (c :: rest) with
    | some (rep, extra) =>
      rep ++ rewriteAllF tm n (((c :: rest).take (extra + 1)).getLast?)
        ((c :: rest).drop (extra + 1))
    | none => c :: rewriteAllF tm n (some c) rest

/-- `re.sub` with the rule-specific matcher `tm`. -/
def rewriteAll (tm : Option Char → Str → Option (Str × Nat)) (s : Str) : Str :=
  rewriteAllF tm s.length none s

/-! ### Matchers for the individual `_clean_latex` substitution rules -/

/-- `re.sub(r'\|([^|]+)\|', r'Abs(\1)', text)` — absolute-value bars
(fast_math_solver.py line 1820).  At a `|` the engine greedily takes a
nonempty run of non-bar characters and requires a closing bar. -/
def absTm : Option Char → Str → Option (Str × Nat)
  | _, [] => none
  | _, c :: rest =>
    if c = '|' then
      let run := rest.takeWhile (fun d => d ≠ '|')
      if run.isEmpty then none
      else
        match rest.drop run.length with
        | '|' :: _ => some (S "Abs(" ++ run ++ S ")", run.length + 1)
        | _ => none
    else none

/-- `re.sub(r'\blambda\b', 'lambda_var', text)`-style whole-word
replacement (lines 1882–1883).  The word starts and ends with word
characters, so the boundary conditions reduce to the neighbours being
non-word characters or string edges. -/
def wordTm (w rep : Str) : Option Char → Str → Option (Str × Nat)
  | prev, s =>
    if w.isPrefixOf s ∧ ¬wordOpt prev ∧ ¬wordOpt (s.drop w.length).head? then
      some (rep, w.length - 1)
    else none

/-- Characters of the class `[a-zA-Z_]`. -/
def subWordCh (c : Char) : Bool := c.isAlpha || c = '_'

/-- `re.sub(r'([a-zA-Z_]+)_{([^}]+)}', r'\1_\2', text)` — subscript brace
collapse (line 1888).  Because `{` is outside the class while `_` is
inside it, a match at a position requires the maximal `[a-zA-Z_]` run to
have length at least two, end in `_`, and be followed by `{`, a nonempty
non-`}` run, and `}`; group 1 is the run without its final underscore. -/
def subscriptTm : Option Char → Str → Option (Str × Nat)
  | _, s =>
    let run := s.takeWhile subWordCh
    if run.length < 2 then none
    else if run.getLast? ≠ some '_' then none
    else
      match s.drop run.length with
      | '{' :: rest2 =>
        let r2 := rest2.takeWhile notRBrace
        if r2.isEmpty then none
        else
          match rest2.drop r2.length with
          | '}' :: _ =>
            some (run.dropLast ++ '_' :: r2, run.length + r2.length + 1)
          | _ => none
      | _ => none

/-- `re.sub(r'\^{([^}]+)}', r'**(\1)', text)` — exponent brace collapse
(line 1891). -/
def expBraceTm : Option Char → Str → Option (Str × Nat)
  | _, [] => none
  | _, c :: rest0 =>
    if c = '^' then
      match rest0 with
      | '{' :: rest =>
        let r := rest.takeWhile notRBrace
        if r.isEmpty then none
        else
          match rest.drop r.length with
          | '}' :: _ => some (S "**(" ++ r ++ S ")", r.length + 2)
          | _ => none
      | _ => none
    else none

/-- `re.sub(r'\\frac\{([^}]+)\}\{([^}]+)\}', r'((\1)/(\2))', text)`
(line 1895). -/
def fracTm : Option Char → Str → Option (Str × Nat)
  | _, s =>
    if (S "\\frac\x7b").isPrefixOf s then
      let rest := s.drop 6
      let r1 := rest.takeWhile notRBrace
      if r1.isEmpty then none
      else
        match rest.drop r1.length with
        | '}' :: '{' :: rest2 =>
          let r2 := rest2.takeWhile notRBrace
          if r2.isEmpty then none
          else
            match rest2.drop r2.length with
            | '}' :: _ =>
              some (S "((" ++ r1 ++ S ")/(" ++ r2 ++ S "))",
                6 + r1.length + 2 + r2.length)
            | _ => none
        | _ => none
    else none

/-- `re.sub(r'\\sqrt\{([^}]+)\}', r'sqrt(\1)', text)` (line 1898). -/
def sqrtBraceTm : Option Char → Str → Option (Str × Nat)
  | _, s =>
    if (S "\\sqrt\x7b").isPrefixOf s then
      let rest := s.drop 6
      let r := rest.takeWhile notRBrace
      if r.isEmpty then none
      else
        match rest.drop r.length with
        | '}' :: _ => some (S "sqrt(" ++ r ++ S ")", 6 + r.length)
        | _ => none
    else none

/-- `re.sub(r'sqrt\(([^)]+)\)', r'sqrt(\1)', text)` — the source's
"normalize" pass for `sqrt(...)`, a rewrite whose output equals its match
(line 1901). -/
def sqrtParenTm : Option Char → Str → Option (Str × Nat)
  | _, s =>
    if (S "sqrt(").isPrefixOf s then
      let rest := s.drop 5
      let r := rest.takeWhile (fun c => c ≠ ')')
      if r.isEmpty then none
      else
        match rest.drop r.length with
        | ')' :: _ => some (S "sqrt(" ++ r ++ S ")", 5 + r.length)
        | _ => none
    else none

/-- `re.sub(r'\)\s*\(', r')*(', text)` — multiplication between adjacent
groups (line 1932). -/
def parenPairTm : Option Char → Str → Option (Str × Nat)
  | _, [] => none
  | _, c :: rest =>
    if c = ')' then
      let run := rest.takeWhile pyWs
      match rest.drop run.length with
      | '(' :: _ => some (S ")*(", run.length + 1)
      | _ => none
    else none

/-- The six function names of the `sin^2(x)` rules, in the alternation
order of the source patterns; they are pairwise prefix-incompatible. -/
def trigNames : List Str := [S "sin", S "cos", S "tan", S "sec", S "csc", S "cot"]

/-- First name of `names` that is a prefix of `s`. -/
def firstNameOf (names : List Str) (s : Str) : Option Str :=
  names.find? (fun w => w.isPrefixOf s)

/-- `re.sub(r'(sin|cos|tan|sec|csc|cot)\*\*\((\d+)\)\(', r'\1(\2**', text)`
(line 1936). -/
def trigPow1Tm : Option Char → Str → Option (Str × Nat)
  | _, s =>
    match firstNameOf trigNames s with
    | some w =>
      let rest := s.drop 3
      if (S "**(").isPrefixOf rest then
        let rest2 := rest.drop 3
        let d := rest2.takeWhile Char.isDigit
        if d.isEmpty then none
        else
          match rest2.drop d.length with
          | ')' :: '(' :: _ => some (w ++ S "(" ++ d ++ S "**", 7 + d.length)
          | _ => none
      else none
    | none => none

/-- `re.sub(r'(sin|cos|tan|sec|csc|cot)\*\*(\d+)\(', r'\1(', text)` — the
source's "Temp fix" that drops the exponent (line 1937). -/
def trigPow2Tm : Option Char → Str → Option (Str × Nat)
  | _, s =>
    match firstNameOf trigNames s with
    | some w =>
      let rest := s.drop 3
      if (S "**").isPrefixOf rest then
        let rest2 := rest.drop 2
        let d := rest2.takeWhile Char.isDigit
        if d.isEmpty then none
        else
          match rest2.drop d.length with
          | '(' :: _ => some (w ++ S "(", 5 + d.length)
          | _ => none
      else none
    | none => none

/-- `re.sub(r'\\[a-zA-Z]+', '', s)` — LaTeX-command removal used by the
validator's character whitelist check (line 218). -/
def latexCmdTm : Option Char → Str → Option (Str × Nat)
  | _, [] => none
  | _, c :: rest =>
    if c = '\\' then
      let run := rest.takeWhile Char.isAlpha
      if run.isEmpty then none else some ([], run.length)
    else none

/-! ### The substitution tables of `_clean_latex` and
`_convert_unicode_to_latex`, in source (= dict insertion) order -/

/-- The Unicode table of `_clean_latex` (lines 1823–1872). -/
def cleanUnicodeTable : List (Str × Str) :=
  [ (S "∫", S "\\int"), (S "∂", S "\\partial"), (S "∑", S "\\sum"),
    (S "∏", S "\\prod"), (S "√", S "sqrt"), (S "∞", S "\\infty"),
    (S "≠", S "!="), (S "≤", S "<="), (S "≥", S ">="), (S "±", S "+-"),
    (S "×", S "*"), (S "÷", S "/"), (S "≈", S "="),
    (S "π", S "pi"), (S "θ", S "theta"), (S "φ", S "phi"),
    (S "α", S "alpha"), (S "β", S "beta"), (S "γ", S "gamma"),
    (S "δ", S "delta"), (S "ε", S "epsilon"), (S "ζ", S "zeta"),
    (S "η", S "eta"), (S "ι", S "iota"), (S "κ", S "kappa"),
    (S "λ", S "lambda_var"), (S "μ", S "mu_var"), (S "ν", S "nu"),
    (S "ξ", S "xi"), (S "ο", S "omicron"), (S "ρ", S "rho"),
    (S "σ", S "sigma"), (S "τ", S "tau"), (S "υ", S "upsilon"),
    (S "χ", S "chi"), (S "ψ", S "psi"), (S "ω", S "omega"),
    (S "Γ", S "Gamma"), (S "Δ", S "Delta"), (S "Θ", S "Theta"),
    (S "Λ", S "Lambda"), (S "Ξ", S "Xi"), (S "Π", S "Pi"),
    (S "Σ", S "Sigma"), (S "Φ", S "Phi"), (S "Ψ", S "Psi"),
    (S "Ω", S "Omega") ]

/-- The trig/log/operator replacement chain of `_clean_latex`
(lines 1904–1925), in execution order. -/
def trigTable : List (Str × Str) :=
  [ (S "\\sin", S "sin"), (S "\\cos", S "cos"), (S "\\tan", S "tan"),
    (S "\\sec", S "sec"), (S "\\csc", S "csc"), (S "\\cot", S "cot"),
    (S "\\arcsin", S "arcsin"), (S "\\arccos", S "arccos"),
    (S "\\arctan", S "arctan"),
    (S "\\ln", S "log"), (S "\\log", S "log"), (S "\\exp", S "exp"),
    (S "\\cdot", S "*"), (S "\\times", S "*"),
    (S "\\left", S ""), (S "\\right", S "") ]

/-- The table of `_convert_unicode_to_latex` (lines 1776–1799). -/
def convertUnicodeTable : List (Str × Str) :=
  [ (S "∫", S "\\int"), (S "∂", S "\\partial"), (S "∑", S "\\sum"),
    (S "∏", S "\\prod"), (S "√", S "\\sqrt"), (S "∞", S "\\infty"),
    (S "²", S "^\x7b2\x7d"), (S "³", S "^\x7b3\x7d"), (S "⁴", S "^\x7b4\x7d"),
    (S "⁵", S "^\x7b5\x7d"), (S "⁶", S "^\x7b6\x7d"), (S "⁷", S "^\x7b7\x7d"),
    (S "⁸", S "^\x7b8\x7d"), (S "⁹", S "^\x7b9\x7d"), (S "⁰", S "^\x7b0\x7d"),
    (S "≠", S "!="), (S "≤", S "<="), (S "≥", S ">="), (S "±", S "+-"),
    (S "×", S "*"), (S "÷", S "/"), (S "≈", S "=") ]

/-- `_convert_unicode_to_latex` (fast_math_solver.py lines 1771–1804). -/
def convertUnicodeToLatex (s : Str) : Str := applyTable convertUnicodeTable s

/-- `_clean_latex` (fast_math_solver.py lines 1806–1942), the symbol
normalizer: every substitution of the source, in source order. -/
def cleanLatex (s : Str) : Str :=
  let t1 := rewriteAll absTm s
  let t2 := applyTable cleanUnicodeTable t1
  let t3 := pyReplace (S "\\infty") (S "oo") t2
  let t4 := rewriteAll (wordTm (S "lambda") (S "lambda_var")) t3
  let t5 := rewriteAll (wordTm (S "mu") (S "mu_var")) t4
  let t6 := rewriteAll subscriptTm t5
  let t7 := rewriteAll expBraceTm t6
  let t8 := pyReplace (S "^") (S "**") t7
  let t9 := rewriteAll fracTm t8
  let t10 := rewriteAll sqrtBraceTm t9
  let t11 := rewriteAll sqrtParenTm t10
  let t12 := applyTable trigTable t11
  let t13 := digitLetterSub t12
  let t14 := rewriteAll parenPairTm t13
  let t15 := rewriteAll trigPow1Tm t14
  let t16 := rewriteAll trigPow2Tm t15
  wsJoin t16

/-- The normalizer of the spec's §4.1: Unicode conversion followed by
LaTeX cleaning, the composition applied to calculus input by
`solve_calculus` (lines 674, 876). -/
def normalize (s : Str) : Str := cleanLatex (convertUnicodeToLatex s)

/-- A character alphabet on which the normalizer reduces to implicit
multiplication plus whitespace collapse: ASCII letters other than `b`
and `u` (excluding those two keeps the reserved words `lambda` and `mu`,
whose one-pass rewriting is a source of non-idempotence, out of reach),
digits, spaces, and `+ = . /`. -/
def okChar (c : Char) : Bool :=
  (c.isAlpha && !(c = 'b') && !(c = 'u')) || c.isDigit ||
    c = ' ' || c = '+' || c = '=' || c = '.' || c = '/'

/-! ## The structural validator `_validate_equation`
(fast_math_solver.py lines 56–234)

The validator's only fallible operation is the `self._parse` call inside
a `try/except` in the missing-differential branch; SymPy parsing is
external to the repository and appears as an oracle
`Str → Except Unit (List Str)` returning the names of the free symbols
of the parsed expression (`.error` models a raised exception).  The
result dictionary is modelled by `VResult`; absent dictionary keys are
`none`. -/

/-- The validator's result dictionary. -/
structure VResult where
  valid : Bool
  error : Option Str := none
  suggestion : Option Str := none
  hint : Option Str := none
  userMessage : Option Str := none
deriving DecidableEq, Repr

/-- The SymPy parse oracle: free-symbol names of the parsed string, or an
exception. -/
def POracle := Str → Except Unit (List Str)

/-- An oracle on which parsing always raises; faithful to SymPy on every
string this development applies it to (the empty string). -/
def noParse : POracle := fun _ => .error ()

/-- Count occurrences of a character, Python `str.count` for a single
character. -/
def countCh (c : Char) (s : Str) : Nat := (s.filter (fun d => d = c)).length

/-- Decimal digits of a number, for the f-string interpolations. -/
def natStr (n : Nat) : Str := (Nat.repr n).data

/-- First-occurrence deduplication, modelling `''.join(set(...))` (whose
order CPython leaves unspecified; no theorem below depends on it). -/
def dedupFirstF : Nat → Str → Str
  | 0, s => s
  | _, [] => []
  | Nat.succ n, c :: r => c :: dedupFirstF n (r.filter (fun d => d ≠ c))

/-- First-occurrence deduplication. -/
def dedupFirst (s : Str) : Str := dedupFirstF s.length s

/-- Count all non-overlapping matches of a scanner, `len(re.findall(...))`. -/
def countAllF (tm : Option Char → Str → Option (Str × Nat)) :
    Nat → Option Char → Str → Nat
  | 0, _, _ => 0
  | Nat.succ _, _, [] => 0
  | Nat.succ n, prev, c :: rest =>
    match tm prev (c :: rest) with
    | some (_, extra) =>
      1 + countAllF tm n (((c :: rest).take (extra + 1)).getLast?)
        ((c :: rest).drop (extra + 1))
    | none => countAllF tm n (some c) rest

/-- `len(re.findall(pat, s))` for a scanner `tm`. -/
def countAll (tm : Option Char → Str → Option (Str × Nat)) (s : Str) : Nat :=
  countAllF tm s.length none s

/-- Matcher for `\\begin\{([^}]+)\}` (line 185). -/
def beginTm : Option Char → Str → Option (Str × Nat)
  | _, s =>
    if (S "\\begin\x7b").isPrefixOf s then
      let rest := s.drop 7
      let run := rest.takeWhile notRBrace
      if run.isEmpty then none
      else
        match rest.drop run.length with
        | '}' :: _ => some ([], 7 + run.length)
        | _ => none
    else none

/-- Matcher for `\\end\{([^}]+)\}` (line 186). -/
def endTm : Option Char → Str → Option (Str × Nat)
  | _, s =>
    if (S "\\end\x7b").isPrefixOf s then
      let rest := s.drop 5
      let run := rest.takeWhile notRBrace
      if run.isEmpty then none
      else
        match rest.drop run.length with
        | '}' :: _ => some ([], 5 + run.length)
        | _ => none
    else none

/-- The operator class `[+\-*/^]`. -/
def opCh (c : Char) : Bool := c = '+' || c = '-' || c = '*' || c = '/' || c = '^'

/-- The operator class `[+*/^]` (no minus), from `[=]\s*[+*/^]`. -/
def opChNoMinus (c : Char) : Bool := c = '+' || c = '*' || c = '/' || c = '^'

/-- `r'd[a-z]'` — the differential test (line 73). -/
def dPat : List RAtom := [.lit 'd', .cls lcLetter]

/-- `r'\\int_\{[^}]+\}\^\{[^}]+\}'` (line 103). -/
def defIntPat1 : List RAtom :=
  rlits "\\int_\x7b" ++ rplus notRBrace ++ rlits "\x7d^\x7b" ++ rplus notRBrace ++ [.lit '}']

/-- `r'∫_\{[^}]+\}\^\{[^}]+\}'` (line 103). -/
def defIntPat2 : List RAtom :=
  rlits "∫_\x7b" ++ rplus notRBrace ++ rlits "\x7d^\x7b" ++ rplus notRBrace ++ [.lit '}']

/-- `r'd/d([a-z])'` (line 116). -/
def ddVarPat : List RAtom := rlits "d/d" ++ [.cls lcLetter]

/-- `r'\\frac\{d\}\{d[a-z]\}'` (line 128). -/
def fracDerivPat : List RAtom :=
  rlits "\\frac\x7bd\x7d\x7bd" ++ [.cls lcLetter, .lit '}']

/-- `r'\\lim_\{[a-z]\s*\\to\s*[^}]+\}'` (line 140). -/
def limPointPat1 : List RAtom :=
  rlits "\\lim_\x7b" ++ [.cls lcLetter, .star pyWs] ++ rlits "\\to" ++
    [.star pyWs] ++ rplus notRBrace ++ [.lit '}']

/-- `r'lim\s+[a-z]\s*→\s*\S+'` (line 141). -/
def limPointPat2 : List RAtom :=
  rlits "lim" ++ rplus pyWs ++ [.cls lcLetter, .star pyWs, .lit '→', .star pyWs] ++
    rplus nonWs

/-- `r'[+\-*/^]\s*[=]'` (line 173). -/
def opBeforeEqPat : List RAtom := [.cls opCh, .star pyWs, .lit '=']

/-- `r'[=]\s*[+*/^]'` (line 173). -/
def eqBeforeOpPat : List RAtom := [.lit '=', .star pyWs, .cls opChNoMinus]

/-- `r'[+\-*/^]{2,}'` (line 206): two adjacent operator characters. -/
def doubleOpPat : List RAtom := [.cls opCh, .cls opCh]

/-- The whitelist class of line 221: letters, digits, whitespace, standard
operators and brackets, recognised Unicode math symbols, Greek letters,
superscript and subscript digits, and the arrow. -/
def allowedChar (c : Char) : Bool :=
  c.isAlphanum || pyWs c ||
    (S "+-*/^()\x7b\x7d[]_.,=<>!|√∫∞×÷≠≤≥πθαβγδεζηικλμνξοπρστυφχψωΓΔΘΛΞΠΣΥΦΨΩ⁰¹²³⁴⁵⁶⁷⁸⁹ⁿ₀₁₂₃₄₅₆₇₈₉→").contains c

/-- The generic missing-differential result (lines 92–98), returned when
the variable-detection `try` block yields nothing. -/
def genericMissingDiff : VResult :=
  ⟨false, some (S "Missing differential in integral"),
    some (S "Add dx, dy, dt, or another differential at the end"),
    some (S "Example: ∫x² dx  (note the \"dx\" at the end)"),
    some (S "⚠️ Your integral is missing a differential! Please add \"dx\" (or dy, dt, etc.) at the end.")⟩

/-- The variable-specific missing-differential result (lines 82–88). -/
def specificMissingDiff (cleaned v : Str) : VResult :=
  ⟨false, some (S "Missing differential in integral"),
    some (S "Did you mean to include \"d" ++ v ++ S "\"?"),
    some (S "Example: ∫" ++ cleaned ++ S " d" ++ v),
    some (S "⚠️ Your integral is missing a differential! Try adding \"d" ++ v ++ S "\" at the end.")⟩

/-- The incomplete-definite-integral result (lines 104–110). -/
def incompleteDefInt : VResult :=
  ⟨false, some (S "Incomplete definite integral"),
    some (S "Definite integrals need both lower and upper limits"),
    some (S "Example: ∫₀² x dx  or  \\int_\x7b0\x7d^\x7b2\x7d x dx"),
    some (S "⚠️ Your definite integral is missing limits! Include both lower and upper bounds like ∫₀² or ∫_\x7b0\x7d^\x7b2\x7d.")⟩

/-- The missing-derivative-variable result (lines 118–124). -/
def missingDerivVar : VResult :=
  ⟨false, some (S "Missing variable in derivative notation"),
    some (S "Specify which variable to differentiate with respect to"),
    some (S "Example: d/dx(x²) or d/dt(sin(t))"),
    some (S "⚠️ Your derivative notation is incomplete! Specify the variable like \"d/dx\" or \"d/dt\".")⟩

/-- The incomplete-fraction-derivative result (lines 129–135). -/
def incompleteFracDeriv : VResult :=
  ⟨false, some (S "Incomplete derivative notation"),
    some (S "Use proper derivative notation: \\frac\x7bd\x7d\x7bdx\x7d"),
    some (S "Example: \\frac\x7bd\x7d\x7bdx\x7d(x²)"),
    some (S "⚠️ Your derivative notation is incomplete! Use \\frac\x7bd\x7d\x7bdx\x7d or \\frac\x7bd\x7d\x7bdt\x7d.")⟩

/-- The missing-limit-point result (lines 145–151). -/
def missingLimitPoint : VResult :=
  ⟨false, some (S "Missing limit point"),
    some (S "Specify what value the variable approaches"),
    some (S "Example: \\lim_\x7bx\\to 0\x7d or lim x→0"),
    some (S "⚠️ Your limit is missing a point! Specify where the variable approaches, like \"x→0\" or \"x→∞\".")⟩

/-- The empty-equation result (lines 199–203). -/
def emptyEquation : VResult :=
  ⟨false, some (S "Empty equation"), none, none,
    some (S "⚠️ Please enter an equation or expression to solve.")⟩

/-- The missing-differential branch of lines 75–98: clean the equation,
`try` to parse it (the oracle yields the free-symbol names, `.error`
modelling a raised exception); a first symbol gives the specific
suggestion, anything else — including the caught exception — falls
through to the generic result. -/
def missingDiffResult (oracle : POracle) (equation : Str) : VResult :=
  let cleaned := cleanLatex equation
  match oracle (pyStrip (pyReplace (S "∫") [] (pyReplace (S "\\int") [] cleaned))) with
  | .ok (v :: _) => specificMissingDiff cleaned v
  | .ok [] => genericMissingDiff
  | .error _ => genericMissingDiff

/-- `_validate_equation(equation, operation_type)`, with every raisable
step explicit in `Except`: the single `try/except`-wrapped parse is the
only fallible call (inside `missingDiffResult`), and its exception is
caught, so the function as a whole never raises (see the totality
theorem). -/
def validateE (oracle : POracle) (equation operationType : Str) : Except Unit VResult :=
  let equationLower := pyLower equation
  let integralGate := operationType = S "integral" ∨ containsSub (S "\\int") equation ∨
    containsSub (S "∫") equation ∨ containsSub (S "integrate") equationLower
  let derivGate := operationType = S "derivative" ∨ containsSub (S "d/d") equation ∨
    containsSub (S "\\frac\x7bd") equation ∨ containsSub (S "derivative") equationLower
  let limitGate := operationType = S "limit" ∨ containsSub (S "\\lim") equation ∨
    containsSub (S "lim") equationLower ∨ containsSub (S "limit") equationLower
  let matrixGate := operationType = S "matrix" ∨ containsSub (S "matrix") equationLower ∨
    containsSub (S "\\begin\x7b") equation
  -- INTEGRAL VALIDATION (lines 71–110)
  if integralGate ∧ ¬searchR dPat equation then
    .ok (missingDiffResult oracle equation)
  else if integralGate ∧
      (containsSub (S "\\int_") equation ∨ containsSub (S "∫_") equation) ∧
      ¬(searchR defIntPat1 equation) ∧ ¬(searchR defIntPat2 equation) then
    .ok incompleteDefInt
  -- DERIVATIVE VALIDATION (lines 113–135)
  else if derivGate ∧ containsSub (S "d/d") equation ∧ ¬searchR ddVarPat equation then
    .ok missingDerivVar
  else if derivGate ∧ containsSub (S "\\frac\x7bd") equation ∧
      ¬searchR fracDerivPat equation then
    .ok incompleteFracDeriv
  -- LIMIT VALIDATION (lines 138–151)
  else if limitGate ∧ ¬(searchR limPointPat1 equation ∨ searchR limPointPat2 equation ∨
      containsSub (S "limit(") equationLower) then
    .ok missingLimitPoint
  -- EQUATION VALIDATION (lines 154–179), gated on the operation hint
  else if operationType = S "equation" ∧ countCh '(' equation ≠ countCh ')' equation then
    .ok ⟨false, some (S "Unbalanced parentheses"),
      some (S "Make sure all opening parentheses \"(\" have matching closing \")\""),
      none,
      some (S "⚠️ Unbalanced parentheses! You have " ++ natStr (countCh '(' equation) ++
        S " opening but " ++ natStr (countCh ')' equation) ++ S " closing.")⟩
  else if operationType = S "equation" ∧ countCh '{' equation ≠ countCh '}' equation then
    .ok ⟨false, some (S "Unbalanced braces"),
      some (S "Make sure all opening braces \"\x7b\" have matching closing \"\x7d\""),
      none,
      some (S "⚠️ Unbalanced braces! You have " ++ natStr (countCh '{' equation) ++
        S " opening but " ++ natStr (countCh '}' equation) ++ S " closing.")⟩
  else if operationType = S "equation" ∧
      (searchR opBeforeEqPat equation ∨ searchR eqBeforeOpPat equation) then
    .ok ⟨false, some (S "Missing operand"),
      some (S "Check that all operators (+, -, *, /, ^) have numbers or variables on both sides"),
      none,
      some (S "⚠️ Missing operand! Make sure operators like +, -, *, / have values on both sides.")⟩
  -- MATRIX VALIDATION (lines 182–194)
  else if matrixGate ∧ containsSub (S "\\begin\x7b") equation ∧
      countAll beginTm equation ≠ countAll endTm equation then
    .ok ⟨false, some (S "Unmatched matrix environment"),
      some (S "Every \\begin\x7bmatrix\x7d needs a matching \\end\x7bmatrix\x7d"),
      none,
      some (S "⚠️ Unmatched matrix environment! Make sure every \\begin\x7bmatrix\x7d has an \\end\x7bmatrix\x7d.")⟩
  -- GENERAL SYNTAX VALIDATION (lines 197–231)
  else if pyStrip equation = [] then
    .ok emptyEquation
  else if searchR doubleOpPat (pyReplace (S "--") [] (pyReplace (S "**") [] equation)) then
    .ok ⟨false, some (S "Multiple consecutive operators"),
      some (S "Remove duplicate operators like \"++\", \"**\", etc."),
      none,
      some (S "⚠️ Multiple consecutive operators detected! Check for typos like \"++\" or \"**\".")⟩
  else
    let cleanedCheck := (rewriteAll latexCmdTm equation).filter (fun c => ¬allowedChar c)
    if pyStrip cleanedCheck ≠ [] then
      let unexpected := dedupFirst (pyStrip cleanedCheck)
      .ok ⟨false, some (S "Unexpected characters"),
        some (S "Found unexpected characters: " ++ unexpected),
        none,
        some (S "⚠️ Unexpected characters found: " ++ unexpected ++
          S ". Please use standard math notation.")⟩
    else
      .ok ⟨true, none, none, none, none⟩

/-- The validator as a total function (justified by the totality lemma:
`validateE` never returns `.error`). -/
def validateRun (oracle : POracle) (equation operationType : Str) : VResult :=
  match validateE oracle equation operationType with
  | .ok r => r
  | .error _ => ⟨false, none, none, none, none⟩

/-! ## The problem-type classifier
(`equation_classifier.py`, `EquationClassifier`)

The category pattern table of lines 15–79, transcribed pattern by
pattern.  `_detect_problem_type` searches the lower-cased input with
`re.IGNORECASE`; on a lower-cased string that is equivalent to matching
lower-cased literals, which is how the patterns are written below. -/

/-- The apostrophe character (from the pattern `f'`). -/
def aposC : Char := Char.ofNat 39

/-- `[xy]`. -/
def xyCls (c : Char) : Bool := c = 'x' || c = 'y'

/-- `\*?` -/
def optStar : List RAtom := ropt (fun c => c = '*')

/-- Two-way alternation as an atom list. -/
def ror2 (a b : List RAtom) : List RAtom := [.alt a b]

/-- Three-way alternation. -/
def ror3 (a b c : List RAtom) : List RAtom := [.alt a [.alt b c]]

/-- Four-way alternation. -/
def ror4 (a b c d : List RAtom) : List RAtom := [.alt a [.alt b [.alt c d]]]

/-- The category pattern table (lines 15–79), in declaration order; each
entry lists the compiled forms of that category's regex patterns. -/
def categoryTable : List (Str × List (List RAtom)) :=
  [ (S "calculus_derivative",
      [ [.lit 'd', .cls xyCls, .lit '/', .lit 'd', .cls xyCls],
        rlits "\\frac\x7bd",
        rlits "derivative",
        [.lit 'f', .lit aposC],
        rlits "\\partial",
        [.bnd, .lit 'd', .lit '/', .lit 'd', .cls lcLetter, .bnd] ]),
    (S "calculus_integral",
      [ rlits "\\int",
        rlits "integral",
        [.lit '∫'],
        rlits "area under",
        [.bnd] ++ rlits "integrate" ++ [.bnd] ]),
    (S "calculus_limit",
      [ rlits "\\lim",
        rlits "limit",
        rlits "approaches",
        rlits "as" ++ [.star anyNoNl, .lit '→'],
        rlits "tends to" ]),
    (S "physics_kinematics",
      [ [.bnd, .lit 'v', .star pyWs, .lit '=', .star pyWs, .lit 'u', .star pyWs,
          .lit '+', .star pyWs, .lit 'a', .star pyWs] ++ optStar ++
          [.star pyWs, .lit 't', .bnd],
        [.bnd, .lit 's', .star pyWs, .lit '=', .star pyWs, .lit 'u', .star pyWs] ++
          optStar ++ [.star pyWs, .lit 't', .star pyWs, .lit '+'],
        [.bnd, .lit 'v', .star pyWs, .lit '*'] ++ optStar ++
          [.star pyWs, .lit '2', .star pyWs, .lit '=', .star pyWs, .lit 'u',
            .star pyWs, .lit '*'] ++ optStar ++ [.star pyWs, .lit '2'],
        ror3 (rlits "velocity") (rlits "acceleration") (rlits "displacement") ]),
    (S "physics_force",
      [ [.bnd, .lit 'f', .star pyWs, .lit '=', .star pyWs, .lit 'm', .star pyWs] ++
          optStar ++ [.star pyWs, .lit 'a', .bnd],
        ror3 (rlits "force") (rlits "newton")
          (rlits "mass" ++ [.star anyNoNl] ++ rlits "acceleration") ]),
    (S "physics_energy",
      [ [.bnd, .lit 'e', .star pyWs, .lit '=', .star pyWs, .lit 'm', .star pyWs] ++
          optStar ++ [.star pyWs, .lit 'c', .star pyWs, .lit '*'] ++ optStar ++
          [.star pyWs, .lit '2'],
        ror2 (rlits "ke" ++ [.star pyWs, .lit '=']) (rlits "pe" ++ [.star pyWs, .lit '=']),
        ror2 (rlits "kinetic") (rlits "potential" ++ [.star anyNoNl] ++ rlits "energy") ]),
    (S "physics_electricity",
      [ [.bnd, .lit 'v', .star pyWs, .lit '=', .star pyWs, .lit 'i', .star pyWs] ++
          optStar ++ [.star pyWs, .lit 'r', .bnd],
        [.bnd, .lit 'p', .star pyWs, .lit '=', .star pyWs, .lit 'v', .star pyWs] ++
          optStar ++ [.star pyWs, .lit 'i', .bnd],
        ror4 (rlits "voltage") (rlits "current") (rlits "resistance") (rlits "ohm") ]),
    (S "statistics",
      [ ror4 (rlits "mean") (rlits "average") (rlits "median") (rlits "mode"),
        ror3 (rlits "variance") (rlits "std") (rlits "standard deviation"),
        ror2 (rlits "probability") (rlits "p("),
        ror2 (rlits "normal distribution") (rlits "gaussian") ]),
    (S "linear_algebra",
      [ ror3 (rlits "matrix") (rlits "determinant") (rlits "eigenvalue"),
        rlits "\\begin\x7bmatrix\x7d",
        ror2 (rlits "dot product") (rlits "cross product"),
        rlits "vector" ]),
    (S "trigonometry",
      [ [.alt ([.bnd] ++ rlits "sin" ++ [.bnd])
          [.alt ([.bnd] ++ rlits "cos" ++ [.bnd])
            [.alt ([.bnd] ++ rlits "tan" ++ [.bnd])
              [.alt ([.bnd] ++ rlits "cot" ++ [.bnd])
                [.alt ([.bnd] ++ rlits "sec" ++ [.bnd])
                  ([.bnd] ++ rlits "csc" ++ [.bnd])]]]]],
        ror3 (rlits "\\sin") (rlits "\\cos") (rlits "\\tan"),
        ror2 (rlits "triangle") (rlits "angle") ]),
    (S "algebra",
      [ ror3 (rlits "solve") (rlits "find") (rlits "calculate"),
        [.lit '=', .star anyNoNl, .cls lcLetter] ]) ]

/-- Number of a category's patterns matching the (already lower-cased)
text. -/
def categoryScore (pats : List (List RAtom)) (lower : Str) : Nat :=
  (pats.filter (fun p => searchR p lower)).length

/-- Every category of the table with its match count for the given
text. -/
def countsOf (text : Str) : List (Str × Nat) :=
  let lower := pyLower text
  categoryTable.map (fun nt => (nt.1, categoryScore nt.2 lower))

/-- The score list of `_detect_problem_type` (lines 128–136): the table in
declaration order, keeping only categories with a positive score, exactly
as the insertion-ordered `scores` dict. -/
def scoreList (text : Str) : List (Str × Nat) :=
  (countsOf text).filter (fun x => 0 < x.2)

/-- The largest score in a count list. -/
def maxScore (l : List (Str × Nat)) : Nat := (l.map Prod.snd).foldr max 0

/-- Python `max(scores, key=scores.get)`: the fold keeps the current best
unless a later entry is strictly greater, so the first maximum wins. -/
def pyMaxKey (x : Str × Nat) (xs : List (Str × Nat)) : Str :=
  (xs.foldl (fun best p => if best.2 < p.2 then p else best) x).1

/-- `_detect_problem_type` (equation_classifier.py lines 126–140). -/
def detectProblemType (text : Str) : Str :=
  match scoreList text with
  | [] => S "algebra"
  | x :: xs => pyMaxKey x xs

/-- The selection rule in the words of the spec (§4.3): take every
category's match count, let the winner be the first category attaining
the maximum count, and fall back to `algebra` when no count is positive.
This definition follows the spec sentence and is compared with
`detectProblemType`, which follows the code. -/
def specDetect (text : Str) : Str :=
  let counts := countsOf text
  let m := maxScore counts
  if m = 0 then S "algebra"
  else
    match counts.find? (fun x => x.2 = m) with
    | some x => x.1
    | none => S "algebra"

/-- `_calculate_confidence` (equation_classifier.py lines 212–222).  The
Python float literals 0.9 / 0.7 / 0.6 / 0.5 are modelled as rationals. -/
def calcConfidence (problemType operation : Str) : ℚ :=
  if problemType ≠ S "algebra" ∧ operation ≠ S "solve" then 9/10
  else if problemType ≠ S "algebra" then 7/10
  else if operation ≠ S "solve" then 6/10
  else 5/10

/-! ## Bound extraction `_extract_limits`
(equation_classifier.py lines 195–210)

`float()` on a captured group is modelled by `pyFloat`, implementing the
decimal part of Python's float grammar (optional sign, digits with an
optional fractional part, surrounding whitespace ignored); the inputs
this file evaluates it on contain no exponents, underscores, or
inf/nan spellings, on which the model would differ.  An uncaught
`ValueError` is `.error`. -/

/-- Value of a digit run. -/
def digitsVal (s : Str) : Nat := s.foldl (fun acc c => acc * 10 + (c.toNat - 48)) 0

/-- Python `float(str)` on decimal literals, `none` for `ValueError`. -/
def pyFloat (s0 : Str) : Option ℚ :=
  let s := pyStrip s0
  let signAndRest : ℚ × Str :=
    match s with
    | '-' :: r => (-1, r)
    | '+' :: r => (1, r)
    | _ => (1, s)
  let sign := signAndRest.1
  let s1 := signAndRest.2
  let ip := s1.takeWhile Char.isDigit
  let rest := s1.drop ip.length
  match rest with
  | [] => if ip.isEmpty then none else some (sign * (digitsVal ip : ℚ))
  | '.' :: fr =>
    let fp := fr.takeWhile Char.isDigit
    if ¬(fr.drop fp.length).isEmpty then none
    else if ip.isEmpty ∧ fp.isEmpty then none
    else some (sign * ((digitsVal ip : ℚ) + (digitsVal fp : ℚ) / (10 : ℚ) ^ fp.length))
  | _ => none

/-- The bound character class `[-\d.]`. -/
def numCh (c : Char) : Bool := c = '-' || c.isDigit || c = '.'

/-- Match attempt of `(?:from|between)\s+([-\d.]+)\s+(?:to|and)\s+([-\d.]+)`
at the current position (line 198); the alternatives and the greedy runs
are deterministic because their character sets are disjoint. -/
def fromToAt (s : Str) : Option (Str × Str) :=
  let kwLen : Option Nat :=
    if (S "from").isPrefixOf s then some 4
    else if (S "between").isPrefixOf s then some 7
    else none
  match kwLen with
  | none => none
  | some k =>
    let r1 := s.drop k
    let w1 := r1.takeWhile pyWs
    if w1.isEmpty then none
    else
      let r2 := r1.drop w1.length
      let b1 := r2.takeWhile numCh
      if b1.isEmpty then none
      else
        let r3 := r2.drop b1.length
        let w2 := r3.takeWhile pyWs
        if w2.isEmpty then none
        else
          let r4 := r3.drop w2.length
          let kw2 : Option Nat :=
            if (S "to").isPrefixOf r4 then some 2
            else if (S "and").isPrefixOf r4 then some 3
            else none
          match kw2 with
          | none => none
          | some k2 =>
            let r5 := r4.drop k2
            let w3 := r5.takeWhile pyWs
            if w3.isEmpty then none
            else
              let b2 := (r5.drop w3.length).takeWhile numCh
              if b2.isEmpty then none else some (b1, b2)

/-- `re.search` for the from/to pattern: leftmost match. -/
def fromToFind : Str → Option (Str × Str)
  | [] => none
  | c :: rest =>
    match fromToAt (c :: rest) with
    | some r => some r
    | none => fromToFind rest

/-- Match attempt of `\[([^,]+),\s*([^\]]+)\]` at the current position
(line 203).  Group 1 is the maximal non-comma run after `[`; for
`\s*([^\]]+)\]` the greedy whitespace run backs off just enough to leave
the second group nonempty before the first `]`. -/
def bracketAt (s : Str) : Option (Str × Str) :=
  match s with
  | '[' :: rest =>
    let r1 := rest.takeWhile (fun c => c ≠ ',')
    if r1.isEmpty then none
    else
      match rest.drop r1.length with
      | ',' :: rest2 =>
        let pre := rest2.takeWhile (fun c => c ≠ ']')
        match rest2.drop pre.length with
        | ']' :: _ =>
          if pre.isEmpty then none
          else
            let w := rest2.takeWhile pyWs
            some (r1, pre.drop (min w.length (pre.length - 1)))
        | _ => none
      | _ => none
  | _ => none

/-- `re.search` for the bracket pattern. -/
def bracketFind : Str → Option (Str × Str)
  | [] => none
  | c :: rest =>
    match bracketAt (c :: rest) with
    | some r => some r
    | none => bracketFind rest

/-- `_extract_limits` (lines 195–210) with exceptions explicit: the
from/to branch calls `float()` outside any `try`, the bracket branch
catches its `ValueError`. -/
def extractLimits (s : Str) : Except Unit (Option (ℚ × ℚ)) :=
  match fromToFind s with
  | some (a, b) =>
    match pyFloat a, pyFloat b with
    | some qa, some qb => .ok (some (qa, qb))
    | _, _ => .error ()
  | none =>
    match bracketFind s with
    | some (a, b) =>
      match pyFloat a, pyFloat b with
      | some qa, some qb => .ok (some (qa, qb))
      | _, _ => .ok none
    | none => .ok none

/-! ## SymPy expressions and the integration-by-parts heuristic
(fast_math_solver.py lines 808–857)

The heuristic inspects the parsed integrand through `is_Mul`, `args`,
`has`, `is_Poly`/`is_polynomial`/`is_Symbol`, division by a factor, and
substring tests on `str(...)`.  `Expr` models the SymPy expressions the
parser produces, with `mul`/`add` carrying their (already flattened)
argument lists in SymPy's `.args` order. -/

inductive Expr where
  | sym (name : String)
  | num (n : Int)
  | add (args : List Expr)
  | mul (args : List Expr)
  | pow (base exponent : Expr)
  | app (fn : String) (arg : Expr)

mutual
/-- SymPy `expr.has(var)`: does the variable occur? -/
def exprHas (v : String) : Expr → Bool
  | .sym n => n = v
  | .num _ => false
  | .add args => exprHasL v args
  | .mul args => exprHasL v args
  | .pow b e => exprHas v b || exprHas v e
  | .app _ a => exprHas v a

/-- `has` over an argument list. -/
def exprHasL (v : String) : List Expr → Bool
  | [] => false
  | e :: es => exprHas v e || exprHasL v es
end

mutual
/-- SymPy `expr.is_polynomial(var)`: the variable occurs only in
polynomial positions (any subterm not containing it counts as a
coefficient). -/
def isPolyIn (v : String) : Expr → Bool
  | .sym _ => true
  | .num _ => true
  | .add args => isPolyInL v args
  | .mul args => isPolyInL v args
  | .pow b e =>
    if exprHas v b || exprHas v e then
      (match e with
       | .num n => decide (0 ≤ n) && isPolyIn v b
       | _ => false)
    else true
  | .app _ a => !exprHas v a

/-- `is_polynomial` over an argument list. -/
def isPolyInL (v : String) : List Expr → Bool
  | [] => true
  | e :: es => isPolyIn v e && isPolyInL v es
end

mutual
/-- Structural equality test for expressions. -/
def exprBeq : Expr → Expr → Bool
  | .sym a, .sym b => a = b
  | .num a, .num b => a = b
  | .add a, .add b => exprBeqL a b
  | .mul a, .mul b => exprBeqL a b
  | .pow a b, .pow c d => exprBeq a c && exprBeq b d
  | .app f a, .app g b => f = g && exprBeq a b
  | _, _ => false

/-- Structural equality on argument lists. -/
def exprBeqL : List Expr → List Expr → Bool
  | [], [] => true
  | a :: as, b :: bs => exprBeq a b && exprBeqL as bs
  | _, _ => false
end

mutual
/-- `str(expr)`: SymPy's printer restricted to this model (multiplication
joined by `*`, powers by `**`, function application as `f(arg)`). -/
def exprStr : Expr → Str
  | .sym n => n.data
  | .num n => (Int.repr n).data
  | .add args => exprStrJoin (S " + ") args
  | .mul args => exprStrJoin (S "*") args
  | .pow b e => exprStr b ++ S "**" ++ exprStr e
  | .app f a => f.data ++ S "(" ++ exprStr a ++ S ")"

/-- Join printed arguments with a separator. -/
def exprStrJoin (sep : Str) : List Expr → Str
  | [] => []
  | [e] => exprStr e
  | e :: es => exprStr e ++ sep ++ exprStrJoin sep es
end

/-- The validation dispatch of lines 652–659. -/
def calcOpType (eq : Str) : Str :=
  if containsSub (S "\\int") eq ∨ containsSub (S "∫") eq ∨
      containsSub (S "integrate") (pyLower eq) then S "integral"
  else if containsSub (S "d/d") eq ∨ containsSub (S "\\frac\x7bd") eq ∨
      containsSub (S "derivative") (pyLower eq) then S "derivative"
  else if containsSub (S "\\lim") eq ∨ containsSub (S "lim") (pyLower eq) ∨
      containsSub (S "limit") (pyLower eq) then S "limit"
  else S "general"

/-- `r'\\lim_\{([a-z])\s*\\to\s*([^}]+)\}\s*(.+)'`, `re.DOTALL` (line 679). -/
def limP1 : List RAtom :=
  rlits "\\lim_\x7b" ++ [.cls lcLetter, .star pyWs] ++ rlits "\\to" ++
    [.star pyWs] ++ rplus notRBrace ++ [.lit '}', .star pyWs] ++ rplus anyCh

/-- `r'lim\s+([a-z])\s*→\s*(\S+)\s+(.+)'`, `re.DOTALL` (line 680). -/
def limP2 : List RAtom :=
  rlits "lim" ++ rplus pyWs ++ [.cls lcLetter, .star pyWs, .lit '→', .star pyWs] ++
    rplus nonWs ++ rplus pyWs ++ rplus anyCh

/-- `r'limit\s*\(\s*(.+?)\s*,\s*([a-z])\s*,\s*(.+?)\s*\)'`, `re.DOTALL`
(line 681). -/
def limP3 : List RAtom :=
  rlits "limit" ++ [.star pyWs, .lit '(', .star pyWs] ++ rplus anyCh ++
    [.star pyWs, .lit ',', .star pyWs, .cls lcLetter, .star pyWs, .lit ',',
      .star pyWs] ++ rplus anyCh ++ [.star pyWs, .lit ')']

/-- `r'\\lim_\{([a-z])\\to\s*([^}]+)\}\s*(.+)'`, `re.DOTALL` (line 682). -/
def limP4 : List RAtom :=
  rlits "\\lim_\x7b" ++ [.cls lcLetter] ++ rlits "\\to" ++ [.star pyWs] ++
    rplus notRBrace ++ [.lit '}', .star pyWs] ++ rplus anyCh

/-- `r'd/d([a-zA-Z])\s*\((.+)\)'` (line 731). -/
def derA1 : List RAtom :=
  rlits "d/d" ++ [.cls anyLetter, .star pyWs, .lit '('] ++ rplus anyNoNl ++ [.lit ')']

/-- `r'd/d([a-zA-Z])\s+(.+)'` (line 733). -/
def derA2 : List RAtom :=
  rlits "d/d" ++ [.cls anyLetter] ++ rplus pyWs ++ rplus anyNoNl

/-- `r'\\frac\{d\}\{d([a-zA-Z])\}\s*\((.+)\)'` (line 737). -/
def derB1 : List RAtom :=
  rlits "\\frac\x7bd\x7d\x7bd" ++ [.cls anyLetter, .lit '}', .star pyWs, .lit '('] ++
    rplus anyNoNl ++ [.lit ')']

/-- `r'\\frac\{d\}\{d([a-zA-Z])\}\s+(.+)'` (line 739). -/
def derB2 : List RAtom :=
  rlits "\\frac\x7bd\x7d\x7bd" ++ [.cls anyLetter, .lit '}'] ++ rplus pyWs ++
    rplus anyNoNl

/-- `r'\\int_\{([^}]+)\}\^\{([^}]+)\}\s*(.+?)\s+d([a-z])'` (line 766). -/
def defIntFull : List RAtom :=
  rlits "\\int_\x7b" ++ rplus notRBrace ++ rlits "\x7d^\x7b" ++ rplus notRBrace ++
    [.lit '}', .star pyWs] ++ rplus anyNoNl ++ rplus pyWs ++ [.lit 'd', .cls lcLetter]

/-- `r'\\int\s*(.+?)\s*d([a-z])'` (line 800). -/
def indefPat : List RAtom :=
  rlits "\\int" ++ [.star pyWs] ++ rplus anyNoNl ++ [.star pyWs, .lit 'd', .cls lcLetter]

/-- Case-insensitive literal run, for the `re.IGNORECASE` late-limit
patterns. -/
def rlitsCI (s : String) : List RAtom :=
  s.data.map (fun c => RAtom.cls (fun d => d.toLower = c))

/-- `r'd/d([a-z])\s*\((.+)\)$'` (line 881). -/
def der2P1 : List RAtom :=
  rlits "d/d" ++ [.cls lcLetter, .star pyWs, .lit '('] ++ rplus anyNoNl ++
    [.lit ')', .eol]

/-- `r'd/d([a-z])\s*\((.+)\)'` (line 884). -/
def der2P2 : List RAtom :=
  rlits "d/d" ++ [.cls lcLetter, .star pyWs, .lit '('] ++ rplus anyNoNl ++ [.lit ')']

/-- `r'\\frac\{d\}\{d([a-z])\}\s*\((.+)\)'` (line 888). -/
def der2P3 : List RAtom :=
  rlits "\\frac\x7bd\x7d\x7bd" ++ [.cls lcLetter, .lit '}', .star pyWs, .lit '('] ++
    rplus anyNoNl ++ [.lit ')']

/-- `r'\\frac\{d\}\{d([a-z])\}\s*(.+)'` (line 891). -/
def der2P4 : List RAtom :=
  rlits "\\frac\x7bd\x7d\x7bd" ++ [.cls lcLetter, .lit '}', .star pyWs] ++ rplus anyNoNl

/-- `r'\\lim_\{([a-z])\s*\\to\s*([^}]+)\}\s*(.+)'`,
`re.IGNORECASE | re.DOTALL` (line 921). -/
def lim2P1 : List RAtom :=
  rlitsCI "\\lim_\x7b" ++ [.cls anyLetter, .star pyWs] ++ rlitsCI "\\to" ++
    [.star pyWs] ++ rplus notRBrace ++ [.lit '}', .star pyWs] ++ rplus anyCh

/-- `r'lim\s+([a-z])\s*→\s*(\S+)\s+(.+)'`, `re.IGNORECASE | re.DOTALL`
(line 927). -/
def lim2P2 : List RAtom :=
  rlitsCI "lim" ++ rplus pyWs ++ [.cls anyLetter, .star pyWs, .lit '→', .star pyWs] ++
    rplus nonWs ++ rplus pyWs ++ rplus anyCh

/-- `r'lim_?\{?([a-z])\s*->\s*([^}]+)\}?\s*(.+)'`, `re.IGNORECASE | re.DOTALL`
(line 933). -/
def lim2P3 : List RAtom :=
  rlitsCI "lim" ++ ropt (fun c => c = '_') ++ ropt (fun c => c = '{') ++
    [.cls anyLetter, .star pyWs, .lit '-', .lit '>', .star pyWs] ++
    rplus notRBrace ++ ropt (fun c => c = '}') ++ [.star pyWs] ++ rplus anyCh

/-- `r'limit\s+(?:as\s+)?([a-z])\s+(?:approaches|to)\s+(\S+)\s+(?:of\s+)?(.+)'`,
`re.IGNORECASE | re.DOTALL` (line 939). -/
def lim2P4 : List RAtom :=
  rlitsCI "limit" ++ rplus pyWs ++ [.alt (rlitsCI "as" ++ rplus pyWs) []] ++
    [.cls anyLetter] ++ rplus pyWs ++
    [.alt (rlitsCI "approaches") (rlitsCI "to")] ++ rplus pyWs ++ rplus nonWs ++
    rplus pyWs ++ [.alt (rlitsCI "of" ++ rplus pyWs) []] ++ rplus anyCh

/-- Which branch of `solve_calculus` produces the result. -/
inductive CalcRoute where
  | invalid (r : VResult)
  | limitEarly
  | derivEarly
  | definiteIntegral
  | indefinite
  | derivLate
  | limitLate
  | seriesExpansion
  | unidentified
deriving DecidableEq, Repr

/-- Does the early limit loop of lines 678–725 find a match? -/
def limitChainHit (e1 : Str) : Bool :=
  searchR limP1 e1 || searchR limP2 e1 || searchR limP3 e1 || searchR limP4 e1

/-- Does the early derivative block of lines 729–763 fire: its gate holds
and one of its four patterns matches? -/
def derivChainHit (e1 : Str) : Bool :=
  (containsSub (S "d/d") e1 || containsSub (S "\\frac\x7bd") e1 ||
    containsSub (S "derivative") (pyLower e1)) &&
  (searchR derA1 e1 || searchR derA2 e1 || searchR derB1 e1 || searchR derB2 e1)

/-- Does the definite-integral pattern of line 766 match? -/
def defIntHit (e1 : Str) : Bool := searchR defIntFull e1

/-- Does the indefinite-integral block of lines 799–801 fire: its gate
holds and its pattern matches? -/
def indefHit (e1 : Str) : Bool :=
  (containsSub (S "\\int") e1 || containsSub (S "integrate") (pyLower e1)) &&
  searchR indefPat e1

/-- Does the late derivative block of lines 879–893 fire? -/
def derivLateHit (e2 : Str) : Bool :=
  (containsSub (S "d/d") e2 || containsSub (S "\\frac\x7bd") e2 ||
    containsSub (S "derivative") (pyLower e2)) &&
  (searchR der2P1 e2 || searchR der2P2 e2 || searchR der2P3 e2 || searchR der2P4 e2)

/-- Does the late limit block of lines 913–943 fire? -/
def limitLateHit (e2 : Str) : Bool :=
  (containsSub (S "\\lim") e2 || containsSub (S "limit") (pyLower e2) ||
    containsSub (S "→") e2 || containsSub (S "lim") (pyLower e2)) &&
  (searchR lim2P1 e2 || searchR lim2P2 e2 || searchR lim2P3 e2 || searchR lim2P4 e2)

/-- Does the series check of line 971 fire? -/
def seriesHit (e2 : Str) : Bool :=
  containsSub (S "taylor") (pyLower e2) || containsSub (S "series") (pyLower e2)

/-- The branch structure of `solve_calculus` (lines 650–987): validation
(652–669), Unicode conversion (674), the early limit loop (678–725), the
early derivative block (729–763), the definite integral (765–796), the
indefinite integral (798–873), cleaning (876), the late derivative
(879–911), the late limit (913–968), and series (970–985); a block whose
gate holds but whose patterns all fail falls through, exactly as in the
source. -/
def solveCalculusRoute (o : POracle) (eq : Str) : CalcRoute :=
  let validation := validateRun o eq (calcOpType eq)
  if validation.valid = false then .invalid validation
  else
    let e1 := convertUnicodeToLatex eq
    if limitChainHit e1 then .limitEarly
    else if derivChainHit e1 then .derivEarly
    else if defIntHit e1 then .definiteIntegral
    else if indefHit e1 then .indefinite
    else
      let e2 := cleanLatex e1
      if derivLateHit e2 then .derivLate
      else if limitLateHit e2 then .limitLate
      else if seriesHit e2 then .seriesExpansion
      else .unidentified

/-! ## `solve_equation` up to its early returns
(fast_math_solver.py lines 236–269) -/

/-- Outcome of the prefix of `solve_equation` that runs before any SymPy
parsing: validation failure, the division-by-zero early return, or
continuation into parsing/solving with the cleaned equation. -/
inductive SolveEqStage where
  | invalidated (r : VResult)
  | divByZero (cleaned : Str)
  | continueSolve (cleaned : Str)
deriving DecidableEq, Repr

/-- Lines 247–269 of `solve_equation`: validate with the `'equation'`
hint, clean, and return the `Division by zero` failure when the
space-stripped cleaned equation contains `/0`, before any parsing. -/
def solveEquationPre (o : POracle) (eq : Str) : SolveEqStage :=
  let val := validateRun o eq (S "equation")
  if val.valid = false then .invalidated val
  else
    let cleaned := cleanLatex eq
    if containsSub (S "/0") (removeSpaces cleaned) then .divByZero cleaned
    else .continueSolve cleaned

/-! ## `fast_solve` preprocessing and dispatch
(fast_math_solver.py lines 1957–2085) -/

/-- Lines 1982–1990: strip, remove one trailing `=`, then one leading
`=`, re-stripping after each removal. -/
def fastSolvePre (eq : Str) : Str :=
  let e1 := pyStrip eq
  let e2 := if e1.getLast? = some '=' then pyStrip e1.dropLast else e1
  if e2.head? = some '=' then pyStrip e2.tail else e2

/-- `_detect_type` (lines 2056–2085). -/
def detectType (eq : Str) : Str :=
  let lower := pyLower eq
  if containsSub (S "\\int") eq ∨ containsSub (S "\\lim") eq ∨
      containsSub (S "\\frac\x7bd") eq ∨ containsSub (S "∫") eq ∨
      containsSub (S "∂") eq ∨ containsSub (S "∑") eq ∨ containsSub (S "∏") eq then
    S "calculus"
  else if containsSub (S "integrate") lower ∨ containsSub (S "derivative") lower ∨
      containsSub (S "limit") lower ∨ containsSub (S "d/d") lower ∨
      containsSub (S "taylor") lower then
    S "calculus"
  else if containsSub (S "sin") lower ∨ containsSub (S "cos") lower ∨
      containsSub (S "tan") lower ∨ containsSub (S "sec") lower ∨
      containsSub (S "csc") lower ∨ containsSub (S "cot") lower then
    S "trigonometry"
  else if containsSub (S "mean") lower ∨ containsSub (S "variance") lower ∨
      containsSub (S "std") lower ∨ containsSub (S "probability") lower ∨
      containsSub (S "average") lower then
    S "statistics"
  else if containsSub (S "matrix") lower ∨ containsSub (S "determinant") lower ∨
      containsSub (S "eigenvalue") lower ∨ containsSub (S "inverse") lower ∨
      containsSub (S "det") lower then
    S "linear_algebra"
  else if containsSub (S "[[") eq then S "linear_algebra"
  else if containsSub (S "velocity") lower ∨ containsSub (S "acceleration") lower ∨
      containsSub (S "force") lower ∨ containsSub (S "energy") lower ∨
      containsSub (S "momentum") lower then
    S "physics"
  else S "algebra"

/-- Lines 1992–2007: the symbol-based calculus hint and the note-type
resolution. -/
def fastSolveNoteType (noteType : Str) (equation : Str) : Str :=
  let lower := pyLower equation
  let hasIntegral := containsSub (S "\\int") equation ∨ containsSub (S "∫") equation
  let hasDerivative := containsSub (S "d/d") lower ∨
    containsSub (S "\\frac\x7bd") equation ∨ containsSub (S "∂") equation
  let hasLimit := containsSub (S "\\lim") equation ∨ containsSub (S "lim") lower ∨
    containsSub (S "→") equation
  let calculusHint := hasIntegral ∨ hasDerivative ∨ hasLimit
  if noteType = S "auto" then
    (if calculusHint then S "calculus" else detectType equation)
  else if noteType ≠ S "calculus" ∧ calculusHint then S "calculus"
  else noteType

/-- The per-category solver entry points, abstracted: their bodies parse
and solve through SymPy, which is outside this repository. -/
structure Handlers (R : Type) where
  calculus : Str → R
  physics : Str → R
  trig : Str → R
  stats : Str → R
  linalg : Str → R
  algebra : Str → R

/-- A concrete instantiation of the per-category handlers, recording only
which solver was chosen; used to evaluate the dispatcher on closed
inputs. -/
def tagHandlers : Handlers Nat :=
  ⟨fun _ => 0, fun _ => 1, fun _ => 2, fun _ => 3, fun _ => 4, fun _ => 5⟩

/-- `fast_solve` (lines 1980–2021): preprocessing, note-type resolution,
and the dispatch of lines 2010–2021; everything after line 1990 depends
on the input only through the preprocessed equation. -/
def fastSolveDispatch {R : Type} (h : Handlers R) (noteType : Str) (eq0 : Str) : R :=
  let equation := fastSolvePre eq0
  let nt := fastSolveNoteType noteType equation
  if nt = S "calculus" then h.calculus equation
  else if nt = S "physics" then h.physics equation
  else if nt = S "trigonometry" ∨ nt = S "trig" then h.trig equation
  else if nt = S "statistics" ∨ nt = S "stats" then h.stats equation
  else if nt = S "linear_algebra" ∨ nt = S "matrix" then h.linalg equation
  else h.algebra equation

/-!
# Theorems

Shared lemmas first, then one theorem per claim (with its witness or
counterexample where required).
-/

/-! ## Substring and replacement lemmas -/

/-- A substring's characters are characters of the string. -/
lemma containsSub_mem {pat s : Str} (h : containsSub pat s = true) :
    ∀ c ∈ pat, c ∈ s := by
  induction s with
  | nil =>
    intro c hc
    unfold containsSub at h
    rw [List.isPrefixOf_iff_prefix] at h
    rcases List.prefix_nil.mp h with rfl
    cases hc
  | cons a rest ih =>
    intro c hc
    unfold containsSub at h
    rcases Bool.or_eq_true_iff.mp h with h | h
    · exact (List.isPrefixOf_iff_prefix.mp h).subset hc
    · exact List.mem_cons_of_mem a (ih h c hc)

/-- Contrapositive form: a string missing one of the pattern's characters
cannot contain the pattern. -/
lemma containsSub_eq_false_of_not_mem {pat s : Str} {c : Char}
    (hc : c ∈ pat) (hs : c ∉ s) : containsSub pat s = false := by
  by_contra h
  exact hs (containsSub_mem (Bool.of_not_eq_false h ▸ rfl) c hc)

/-- An unmatched replacement is the identity, for any fuel. -/
lemma pyReplaceF_id {pat rep : Str} :
    ∀ (f : Nat) (s : Str), containsSub pat s = false → pyReplaceF pat rep f s = s := by
  intro f
  induction f with
  | zero => intro s _; cases s <;> rfl
  | succ n ih =>
    intro s h
    cases s with
    | nil => rfl
    | cons c rest =>
      unfold containsSub at h
      rw [Bool.or_eq_false_iff] at h
      unfold pyReplaceF
      rw [if_neg (by simp [h.1]), ih rest h.2]

/-- An unmatched replacement is the identity. -/
lemma pyReplace_id {pat rep s : Str} (h : containsSub pat s = false) :
    pyReplace pat rep s = s := pyReplaceF_id s.length s h

/-- A table of replacements none of which occurs is the identity.  The
occurrence condition is phrased through a character test `q`: every
character of `s` satisfies `q`, while every pattern of the table has a
character failing `q`. -/
lemma applyTable_id {table : List (Str × Str)} {q : Char → Bool} {s : Str}
    (hs : ∀ c ∈ s, q c = true)
    (htab : ∀ pr ∈ table, ∃ c ∈ pr.1, q c = false) :
    applyTable table s = s := by
  induction table with
  | nil => rfl
  | cons pr rest ih =>
    obtain ⟨c, hcp, hcq⟩ := htab pr (List.mem_cons_self pr rest)
    have hno : containsSub pr.1 s = false :=
      containsSub_eq_false_of_not_mem hcp (fun hmem => by rw [hs c hmem] at hcq; cases hcq)
    unfold applyTable
    rw [List.foldl_cons, pyReplace_id hno]
    exact ih (fun p hp => htab p (List.mem_cons_of_mem pr hp))

/-- A scanner whose matcher never fires is the identity, for any fuel and
previous character.  `P` is a property of the remaining input that rules
out a match and is stable under dropping the head. -/
lemma rewriteAllF_id {tm : Option Char → Str → Option (Str × Nat)}
    {P : Str → Prop}
    (hnone : ∀ prev c rest, P (c :: rest) → tm prev (c :: rest) = none)
    (htail : ∀ c rest, P (c :: rest) → P rest) :
    ∀ (f : Nat) (prev : Option Char) (s : Str), P s → rewriteAllF tm f prev s = s := by
  intro f
  induction f with
  | zero => intro prev s _; rfl
  | succ n ih =>
    intro prev s hP
    cases s with
    | nil => rfl
    | cons c rest =>
      unfold rewriteAllF
      rw [hnone prev c rest hP]
      rw [ih (some c) rest (htail c rest hP)]

/-- Identity form at the wrapper. -/
lemma rewriteAll_id {tm : Option Char → Str → Option (Str × Nat)}
    {P : Str → Prop}
    (hnone : ∀ prev c rest, P (c :: rest) → tm prev (c :: rest) = none)
    (htail : ∀ c rest, P (c :: rest) → P rest)
    {s : Str} (hP : P s) : rewriteAll tm s = s :=
  rewriteAllF_id hnone htail s.length none s hP

/-! ## Stripping lemmas, for the `fast_solve` preprocessing -/

/-- Appending a non-whitespace character commutes with a left strip. -/
lemma lstrip_concat_nonws {e : Str} {c : Char} (h : pyWs c = false) :
    (e ++ [c]).dropWhile pyWs = e.dropWhile pyWs ++ [c] := by
  induction e with
  | nil => simp [List.dropWhile_cons, h]
  | cons a rest ih =>
    by_cases ha : pyWs a <;> simp [List.dropWhile_cons, ha, ih]

/-- A string ending in a non-whitespace character is right-strip stable. -/
lemma pyRStrip_concat_nonws {e : Str} {c : Char} (h : pyWs c = false) :
    pyRStrip (e ++ [c]) = e ++ [c] := by
  induction e with
  | nil => simp [pyRStrip, h]
  | cons a rest ih =>
    show pyRStrip (a :: (rest ++ [c])) = _
    unfold pyRStrip
    rw [ih]
    cases hrc : rest ++ [c] with
    | nil => exact absurd hrc (by simp)
    | cons x xs => simp [hrc]

/-- Right strip past a leading non-whitespace character. -/
lemma pyRStrip_cons_nonws {c : Char} {e : Str} (h : pyWs c = false) :
    pyRStrip (c :: e) = c :: pyRStrip e := by
  cases he : pyRStrip e with
  | nil => simp [pyRStrip, he, h]
  | cons x xs => simp [pyRStrip, he]

/-- The right strip never ends in whitespace. -/
lemma pyRStrip_getLast_not_ws :
    ∀ {e : Str} {c : Char}, (pyRStrip e).getLast? = some c → pyWs c = false := by
  intro e
  induction e with
  | nil => intro c h; simp [pyRStrip] at h
  | cons a rest ih =>
    intro c h
    rcases hre : pyRStrip rest with _ | ⟨x, xs⟩
    · by_cases ha : pyWs a
      · simp [pyRStrip, hre, ha] at h
      · simp [pyRStrip, hre, ha] at h
        rw [← h]
        simpa using ha
    · have hstep : pyRStrip (a :: rest) = a :: x :: xs := by simp [pyRStrip, hre]
      rw [hstep, List.getLast?_cons_cons, ← hre] at h
      exact ih h

/-- Right strip past a leading character, when the tail does not strip to
nothing. -/
lemma pyRStrip_cons_of_ne_nil {a : Char} {e : Str} (h : pyRStrip e ≠ []) :
    pyRStrip (a :: e) = a :: pyRStrip e := by
  cases he : pyRStrip e with
  | nil => exact absurd he h
  | cons x xs => simp [pyRStrip, he]

/-- A string whose last character is not whitespace is right-strip
stable. -/
lemma pyRStrip_fix :
    ∀ {t : Str}, (∀ c, t.getLast? = some c → pyWs c = false) → pyRStrip t = t := by
  intro t
  induction t with
  | nil => intro _; rfl
  | cons a rest ih =>
    intro h
    cases rest with
    | nil =>
      have := h a rfl
      simp [pyRStrip, this]
    | cons b rs =>
      have hr : pyRStrip (b :: rs) = b :: rs :=
        ih (fun c hc => h c (by rw [List.getLast?_cons_cons]; exact hc))
      rw [pyRStrip_cons_of_ne_nil (by rw [hr]; simp), hr]

/-- Dropping a prefix keeps the last element, provided something is
left. -/
lemma getLast?_dropWhile_ne_nil {p : Char → Bool} {l : Str}
    (h : l.dropWhile p ≠ []) : (l.dropWhile p).getLast? = l.getLast? := by
  induction l with
  | nil => exact absurd rfl h
  | cons a rest ih =>
    by_cases ha : p a
    · rw [List.dropWhile_cons, if_pos ha] at h ⊢
      rw [ih h]
      cases rest with
      | nil => simp at h
      | cons b rs => rw [List.getLast?_cons_cons]
    · rw [List.dropWhile_cons, if_neg ha]

/-- Stripping is unaffected by a prior left strip. -/
lemma pyStrip_lstrip {e : Str} : pyStrip (e.dropWhile pyWs) = pyStrip e := by
  induction e with
  | nil => rfl
  | cons a rest ih =>
    by_cases ha : pyWs a
    · rw [List.dropWhile_cons, if_pos ha, ih]
      cases hre : pyRStrip rest with
      | nil => simp [pyStrip, pyRStrip, hre, ha]
      | cons x xs => simp [pyStrip, pyRStrip, hre, ha, List.dropWhile_cons]
    · rw [List.dropWhile_cons, if_neg ha]

/-- The preprocessed form of an equation with one `=` appended. -/
lemma fastSolvePre_concat {e : Str}
    (h2 : (pyStrip e).head? ≠ some '=') :
    fastSolvePre (e ++ ['=']) = pyStrip e := by
  have hne : pyWs '=' = false := by decide
  have he1 : pyStrip (e ++ ['=']) = e.dropWhile pyWs ++ ['='] := by
    unfold pyStrip
    rw [pyRStrip_concat_nonws hne, lstrip_concat_nonws hne]
  unfold fastSolvePre
  dsimp only
  rw [he1, List.getLast?_concat]
  rw [if_pos rfl]
  rw [List.dropLast_concat, pyStrip_lstrip]
  rw [if_neg h2]

/-- The preprocessed form of an equation with one `=` prepended. -/
lemma fastSolvePre_cons {e : Str}
    (h1 : (pyStrip e).getLast? ≠ some '=') :
    fastSolvePre ('=' :: e) = pyStrip e := by
  have hne : pyWs '=' = false := by decide
  have he1 : pyStrip ('=' :: e) = '=' :: pyRStrip e := by
    unfold pyStrip
    rw [pyRStrip_cons_nonws hne, List.dropWhile_cons, if_neg (by simp [hne])]
  unfold fastSolvePre
  dsimp only
  rw [he1]
  cases ht : pyRStrip e with
  | nil =>
    have hpe : pyStrip e = [] := by unfold pyStrip; rw [ht]; rfl
    rw [hpe]
    decide
  | cons x xs =>
    obtain ⟨hxne, hlastC⟩ : (x :: xs) ≠ [] ∧
        (x :: xs).getLast? = some ((x :: xs).getLast (by simp)) :=
      ⟨by simp, List.getLast?_eq_getLast_of_ne_nil (by simp)⟩
    have hcws : pyWs ((x :: xs).getLast (by simp)) = false :=
      pyRStrip_getLast_not_ws (e := e) (by rw [ht]; exact hlastC)
    have hdw : (x :: xs).dropWhile pyWs ≠ [] := by
      intro hnil
      have hall := List.dropWhile_eq_nil_iff.mp hnil
      rw [hall _ (List.getLast_mem hxne)] at hcws
      cases hcws
    have hlast : (x :: xs).getLast? = (pyStrip e).getLast? := by
      unfold pyStrip
      rw [ht, getLast?_dropWhile_ne_nil hdw]
    rw [List.getLast?_cons_cons]
    have hne2 : ¬((x :: xs).getLast? = some '=') := by rw [hlast]; exact h1
    rw [if_neg hne2]
    simp only [List.head?_cons, List.tail_cons, if_true]
    show pyStrip (x :: xs) = pyStrip e
    unfold pyStrip
    rw [pyRStrip_fix
      (fun c hc => pyRStrip_getLast_not_ws (e := e) (by rw [ht]; exact hc))]
    rw [← ht]

/-- A string whose strip has no `=` at either end is preprocess-stable. -/
lemma fastSolvePre_plain {e : Str}
    (h1 : (pyStrip e).getLast? ≠ some '=') (h2 : (pyStrip e).head? ≠ some '=') :
    fastSolvePre e = pyStrip e := by
  unfold fastSolvePre
  dsimp only
  rw [if_neg h1, if_neg (by simpa using h2)]

/-- **C10.**  Stray leading and trailing equals signs are stripped before
routing: for an equation whose stripped form neither starts nor ends
with `=`, appending one trailing `=` (or prepending one leading `=`)
leaves the result of the top-level `fast_solve` dispatch unchanged, for
every choice of note type and of per-category solver behaviour. -/
theorem c10_equals_stripping {R : Type} (h : Handlers R) (nt e : Str)
    (h1 : (pyStrip e).getLast? ≠ some '=') (h2 : (pyStrip e).head? ≠ some '=') :
    fastSolveDispatch h nt (e ++ ['=']) = fastSolveDispatch h nt e ∧
    fastSolveDispatch h nt ('=' :: e) = fastSolveDispatch h nt e := by
  unfold fastSolveDispatch
  rw [fastSolvePre_concat h2, fastSolvePre_cons h1, fastSolvePre_plain h1 h2]
  exact ⟨rfl, rfl⟩

set_option maxRecDepth 100000 in
/-- Witness for C10 at a concrete input. -/
theorem c10_witness :
    (pyStrip (S " x+3 = 5 ")).getLast? ≠ some '=' ∧
    (pyStrip (S " x+3 = 5 ")).head? ≠ some '=' ∧
    fastSolveDispatch tagHandlers (S "algebra") (S " x+3 = 5 " ++ ['=']) =
      fastSolveDispatch tagHandlers (S "algebra") (S " x+3 = 5 ") ∧
    fastSolveDispatch tagHandlers (S "algebra") ('=' :: S " x+3 = 5 ") =
      fastSolveDispatch tagHandlers (S "algebra") (S " x+3 = 5 ") :=
  ⟨by decide, by decide,
    c10_equals_stripping tagHandlers (S "algebra") (S " x+3 = 5 ")
      (by decide) (by decide)⟩

/-- **C6.**  The confidence score of `_calculate_confidence` is the exact
step function of the claim — 0.9 for a non-default problem type with a
non-default operation, 0.7 for only a non-default type, 0.6 for only a
non-default operation, 0.5 otherwise — and is strictly monotone along
the claimed chain. -/
theorem c6_confidence_step (pt op : Str)
    (hpt : pt ≠ S "algebra") (hop : op ≠ S "solve") :
    calcConfidence pt op = 9/10 ∧
    calcConfidence pt (S "solve") = 7/10 ∧
    calcConfidence (S "algebra") op = 6/10 ∧
    calcConfidence (S "algebra") (S "solve") = 5/10 ∧
    calcConfidence pt op > calcConfidence pt (S "solve") ∧
    calcConfidence pt (S "solve") > calcConfidence (S "algebra") (S "solve") := by
  unfold calcConfidence
  simp only [if_pos, if_neg, ne_eq, hpt, hop, not_false_eq_true, and_self, true_and,
    and_true, if_true, not_true_eq_false, and_false, if_false]
  norm_num

/-- Witness for C6 at a concrete classification. -/
theorem c6_witness :
    calcConfidence (S "calculus_integral") (S "integrate") = 9/10 ∧
    calcConfidence (S "calculus_integral") (S "solve") = 7/10 ∧
    calcConfidence (S "algebra") (S "integrate") = 6/10 ∧
    calcConfidence (S "algebra") (S "solve") = 5/10 ∧
    calcConfidence (S "calculus_integral") (S "integrate") >
      calcConfidence (S "calculus_integral") (S "solve") ∧
    calcConfidence (S "calculus_integral") (S "solve") >
      calcConfidence (S "algebra") (S "solve") :=
  c6_confidence_step (S "calculus_integral") (S "integrate") (by decide) (by decide)

/-- **C9.**  Any equation that passes structural validation under the
`'equation'` hint and whose cleaned, space-stripped form contains the
substring `/0` is rejected by `solve_equation` with the `Division by
zero` error before any parsing or solving is attempted. -/
theorem c9_division_by_zero (o : POracle) (eq : Str)
    (hval : (validateRun o eq (S "equation")).valid = true)
    (hdiv : containsSub (S "/0") (removeSpaces (cleanLatex eq)) = true) :
    solveEquationPre o eq = .divByZero (cleanLatex eq) := by
  unfold solveEquationPre
  dsimp only
  rw [hval]
  simp [hdiv]

set_option maxRecDepth 100000 in
/-- Witness for C9 at the claim's concrete input `x/0.5 = 1`, whose
denominator is not zero. -/
theorem c9_witness :
    (validateRun noParse (S "x/0.5 = 1") (S "equation")).valid = true ∧
    containsSub (S "/0") (removeSpaces (cleanLatex (S "x/0.5 = 1"))) = true ∧
    solveEquationPre noParse (S "x/0.5 = 1") = .divByZero (cleanLatex (S "x/0.5 = 1")) :=
  ⟨by decide, by decide,
    c9_division_by_zero noParse (S "x/0.5 = 1") (by decide) (by decide)⟩

/-! ## Validator totality (C4) -/

/-- The validator never raises: every branch of `validateE` returns `.ok`
(the one fallible call sits inside the modelled `try/except`). -/
lemma isOk_ite {c : Prop} [Decidable c] {a b : Except Unit VResult}
    (ha : a.isOk = true) (hb : b.isOk = true) :
    (if c then a else b).isOk = true := by
  by_cases h : c
  · rw [if_pos h]; exact ha
  · rw [if_neg h]; exact hb

/-- Eliminate a property of the `.ok` payload through an `if`. -/
lemma ok_ite_elim {c : Prop} [Decidable c] {a b : Except Unit VResult}
    {P : VResult → Prop}
    (ha : ∀ r, a = .ok r → P r) (hb : ∀ r, b = .ok r → P r) :
    ∀ r, (if c then a else b) = .ok r → P r := by
  intro r hr
  by_cases h : c
  · rw [if_pos h] at hr; exact ha r hr
  · rw [if_neg h] at hr; exact hb r hr

/-- The validator never raises: every branch of `validateE` returns `.ok`
(the one fallible call sits inside the modelled `try/except`). -/
lemma validateE_isOk (o : POracle) (eq op : Str) :
    (validateE o eq op).isOk = true := by
  unfold validateE
  dsimp only
  repeat' apply isOk_ite
  all_goals rfl

/-- The validator never raises, existential form. -/
lemma validateE_never_error (o : POracle) (eq op : Str) :
    ∃ r, validateE o eq op = .ok r := by
  have h := validateE_isOk o eq op
  cases hv : validateE o eq op with
  | ok r => exact ⟨r, rfl⟩
  | error u => rw [hv] at h; cases h

/-- `validateE` agrees with its total wrapper. -/
lemma validateE_eq_run (o : POracle) (eq op : Str) :
    validateE o eq op = .ok (validateRun o eq op) := by
  obtain ⟨r, hr⟩ := validateE_never_error o eq op
  unfold validateRun
  rw [hr]

/-- Every result is tagged: valid with no error, or invalid with an
error message present. -/
lemma validateE_shape (o : POracle) (eq op : Str) {r : VResult}
    (h : validateE o eq op = .ok r) :
    r.valid = true ∧ r.error = none ∨ r.valid = false ∧ r.error ≠ none := by
  revert h
  revert r
  unfold validateE
  dsimp only
  repeat' apply ok_ite_elim
  all_goals intro r hr
  all_goals injection hr with hr2
  all_goals subst hr2
  case _ =>
    unfold missingDiffResult
    dsimp only
    rcases o (pyStrip (pyReplace (S "∫") [] (pyReplace (S "\\int") [] (cleanLatex eq)))) with e | vs
    · exact Or.inr ⟨rfl, by simp [genericMissingDiff]⟩
    · rcases vs with _ | ⟨v, rest⟩
      · exact Or.inr ⟨rfl, by simp [genericMissingDiff]⟩
      · exact Or.inr ⟨rfl, by simp [specificMissingDiff]⟩
  all_goals
    first
      | exact Or.inl ⟨rfl, rfl⟩
      | exact Or.inr ⟨rfl, by
          simp [genericMissingDiff, specificMissingDiff, incompleteDefInt,
            missingDerivVar, incompleteFracDeriv, missingLimitPoint, emptyEquation]⟩

/-- **C4.**  For every string input and operation hint (and every
behaviour of the external parser, exceptions included), the validator
returns exactly one structured result — tagged valid, or invalid
carrying an error — and never raises: the `Except`-explicit model
`validateE` always returns `.ok` of the deterministic result. -/
theorem c4_validator_totality (o : POracle) (eq op : Str) :
    validateE o eq op = .ok (validateRun o eq op) ∧
    ((validateRun o eq op).valid = true ∧ (validateRun o eq op).error = none ∨
     (validateRun o eq op).valid = false ∧ (validateRun o eq op).error ≠ none) :=
  ⟨validateE_eq_run o eq op, validateE_shape o eq op (validateE_eq_run o eq op)⟩

/-! ## Bound extraction (C8) -/

/-- Counterexample to C8 as stated: in `"from - to 5"` the from/to
pattern matches with the captured bound `-`, which fails to parse as a
number, and `_extract_limits` raises an uncaught `ValueError` instead of
returning the no-limits result. -/
theorem c8_counterexample :
    fromToFind (S "from - to 5") = some (S "-", S "5") ∧
    pyFloat (S "-") = none ∧
    extractLimits (S "from - to 5") = .error () := by
  refine ⟨by decide, by decide, ?_⟩
  rfl

/-- **C8 (amended).**  Bound extraction degrades to the no-limits result
only for the bracket notation: when the from/to pattern does not match
and the bracket pattern's captured bounds fail numeric parsing, the
result is `none` without an exception; but when the from/to pattern
itself captures an unparseable bound, the `float` call raises and the
exception propagates. -/
theorem c8_bound_extraction (s : Str) (a b : Str) :
    (fromToFind s = none → bracketFind s = some (a, b) →
      pyFloat a = none ∨ pyFloat b = none →
      extractLimits s = .ok none) ∧
    (fromToFind s = some (a, b) →
      pyFloat a = none ∨ pyFloat b = none →
      extractLimits s = .error ()) := by
  constructor
  · intro hft hbr hfl
    unfold extractLimits
    rw [hft, hbr]
    dsimp only
    rcases hfl with h | h
    · rw [h]
    · rw [h]
      cases pyFloat a <;> rfl
  · intro hft hfl
    unfold extractLimits
    rw [hft]
    dsimp only
    rcases hfl with h | h
    · rw [h]
    · rw [h]
      cases pyFloat a <;> rfl

/-- Witness for C8 at `"[a, 5]"`: the bracket pattern captures `a`,
which fails to parse, and the extractor returns `none` without
raising. -/
theorem c8_witness :
    fromToFind (S "[a, 5]") = none ∧
    bracketFind (S "[a, 5]") = some (S "a", S "5") ∧
    pyFloat (S "a") = none ∧
    extractLimits (S "[a, 5]") = .ok none :=
  ⟨by decide, by decide, by decide,
    (c8_bound_extraction (S "[a, 5]") (S "a") (S "5")).1
      (by decide) (by decide) (Or.inl (by decide))⟩

/-! ## The calculus routing order (C7) -/

set_option maxRecDepth 100000 in
/-- Counterexample to C7 as stated: `\lim_{x\to 0} \int x dx` matches
both the limit chain and the indefinite-integral chain, and the router
returns the limit branch — the limit chain is tried first, not last as
the claimed priority order (definite before indefinite before derivative
before limit) requires. -/
theorem c7_counterexample :
    solveCalculusRoute noParse (S "\\lim_\x7bx\\to 0\x7d \\int x dx") =
      CalcRoute.limitEarly ∧
    indefHit (convertUnicodeToLatex (S "\\lim_\x7bx\\to 0\x7d \\int x dx")) = true :=
  ⟨by decide, by decide⟩

/-- **C7 (amended).**  `solve_calculus` tries its chains first-match-wins
in the order: limit patterns, then the derivative block, then the
definite integral (which indeed precedes the indefinite integral), then
the indefinite integral — not definite-before-indefinite-before-
derivative-before-limit as claimed. -/
theorem c7_route_priority (o : POracle) (eq : Str)
    (hv : (validateRun o eq (calcOpType eq)).valid = true) :
    (limitChainHit (convertUnicodeToLatex eq) = true →
      solveCalculusRoute o eq = .limitEarly) ∧
    (limitChainHit (convertUnicodeToLatex eq) = false →
      derivChainHit (convertUnicodeToLatex eq) = true →
      solveCalculusRoute o eq = .derivEarly) ∧
    (limitChainHit (convertUnicodeToLatex eq) = false →
      derivChainHit (convertUnicodeToLatex eq) = false →
      defIntHit (convertUnicodeToLatex eq) = true →
      solveCalculusRoute o eq = .definiteIntegral) ∧
    (limitChainHit (convertUnicodeToLatex eq) = false →
      derivChainHit (convertUnicodeToLatex eq) = false →
      defIntHit (convertUnicodeToLatex eq) = false →
      indefHit (convertUnicodeToLatex eq) = true →
      solveCalculusRoute o eq = .indefinite) := by
  refine ⟨fun h1 => ?_, fun h1 h2 => ?_, fun h1 h2 h3 => ?_, fun h1 h2 h3 h4 => ?_⟩ <;>
    simp [solveCalculusRoute, hv, h1, *]

set_option maxRecDepth 100000 in
/-- Witness for C7: the spec's indefinite-integral example routes to the
indefinite branch through the amended priority order. -/
theorem c7_witness :
    solveCalculusRoute noParse (S "\\int x^\x7b2\x7ddx") = CalcRoute.indefinite :=
  ((c7_route_priority noParse (S "\\int x^\x7b2\x7ddx") (by decide)).2.2.2)
    (by decide) (by decide) (by decide) (by decide)

/-! ## The integration-by-parts heuristic (C1) -/

mutual
/-- Structural equality is reflexive. -/
theorem exprBeq_refl : ∀ e : Expr, exprBeq e e = true
  | .sym _ => by simp [exprBeq]
  | .num _ => by simp [exprBeq]
  | .add args => by simpa [exprBeq] using exprBeqL_refl args
  | .mul args => by simpa [exprBeq] using exprBeqL_refl args
  | .pow b e => by simp [exprBeq, exprBeq_refl b, exprBeq_refl e]
  | .app _ a => by simp [exprBeq, exprBeq_refl a]

/-- Structural equality on lists is reflexive. -/
theorem exprBeqL_refl : ∀ l : List Expr, exprBeqL l l = true
  | [] => rfl
  | e :: es => by simp [exprBeqL, exprBeq_refl e, exprBeqL_refl es]
end

theorem maxScore_cons (a : Str × Nat) (l : List (Str × Nat)) :
    maxScore (a :: l) = max a.2 (maxScore l) := rfl

/-- Filtering out the zero-score entries keeps the maximum score. -/
theorem maxScore_filter (l : List (Str × Nat)) :
    maxScore (l.filter (fun x => 0 < x.2)) = maxScore l := by
  induction l with
  | nil => rfl
  | cons a l ih =>
    by_cases ha : 0 < a.2
    · rw [List.filter_cons_of_pos (by simpa using ha), maxScore_cons, ih, maxScore_cons]
    · rw [List.filter_cons_of_neg (by simpa using ha), ih, maxScore_cons]
      omega

/-- The positive filter is empty exactly when the maximum score is zero. -/
theorem filter_pos_nil_iff (l : List (Str × Nat)) :
    l.filter (fun x => 0 < x.2) = [] ↔ maxScore l = 0 := by
  induction l with
  | nil => simp [maxScore]
  | cons a l ih =>
    by_cases ha : 0 < a.2
    · rw [List.filter_cons_of_pos (by simpa using ha), maxScore_cons]
      constructor
      · intro h; exact absurd h (List.cons_ne_nil a _)
      · intro h; omega
    · rw [List.filter_cons_of_neg (by simpa using ha), ih, maxScore_cons]
      omega

/-- Searching for an entry attaining a positive value is unaffected by the
positive filter. -/
theorem find?_filter_max (l : List (Str × Nat)) (m : Nat) (hm : 0 < m) :
    (l.filter (fun x => 0 < x.2)).find? (fun x => x.2 = m) =
      l.find? (fun x => x.2 = m) := by
  induction l with
  | nil => rfl
  | cons a l ih =>
    by_cases ha : 0 < a.2
    · rw [List.filter_cons_of_pos (by simpa using ha)]
      by_cases he : a.2 = m
      · rw [List.find?_cons_of_pos _ (by simpa using he),
          List.find?_cons_of_pos _ (by simpa using he)]
      · rw [List.find?_cons_of_neg _ (by simpa using he),
          List.find?_cons_of_neg _ (by simpa using he), ih]
    · have he : ¬ a.2 = m := by omega
      rw [List.filter_cons_of_neg (by simpa using ha), ih,
        List.find?_cons_of_neg _ (by simpa using he)]

/-- The first-maximum fold of Python `max(key=...)` returns exactly the
first list entry attaining the maximum value. -/
theorem pyMaxKey_find (xs : List (Str × Nat)) : ∀ x : Str × Nat,
    (x :: xs).find? (fun p => p.2 = maxScore (x :: xs)) =
      some (xs.foldl (fun best p => if best.2 < p.2 then p else best) x) := by
  induction xs with
  | nil =>
    intro x
    rw [List.find?_cons_of_pos _ (by simp [maxScore_cons, maxScore])]
    rfl
  | cons y ys ih =>
    intro x
    rw [List.foldl_cons]
    set x' := if x.2 < y.2 then y else x with hxdef
    have hx2 : x'.2 = max x.2 y.2 := by
      rw [hxdef]; split <;> omega
    have hM : maxScore (x :: y :: ys) = maxScore (x' :: ys) := by
      rw [maxScore_cons, maxScore_cons, maxScore_cons, hx2]
      omega
    rw [hM, ← ih x']
    set m := maxScore (x' :: ys) with hmdef
    have hmd : m = max (max x.2 y.2) (maxScore ys) := by
      rw [hmdef, maxScore_cons, hx2]
    by_cases hx : x.2 = m
    · have hxy : ¬ x.2 < y.2 := by omega
      have hxx : x' = x := by rw [hxdef]; exact if_neg hxy
      rw [List.find?_cons_of_pos _ (by simpa using hx), hxx,
        List.find?_cons_of_pos _ (by simpa using hx)]
    · rw [List.find?_cons_of_neg _ (by simpa using hx)]
      by_cases hy : y.2 = m
      · have hxy : x.2 < y.2 := by omega
        have hxx : x' = y := by rw [hxdef]; exact if_pos hxy
        rw [List.find?_cons_of_pos _ (by simpa using hy), hxx,
          List.find?_cons_of_pos _ (by simpa using hy)]
      · rw [List.find?_cons_of_neg _ (by simpa using hy)]
        have hxm : ¬ x'.2 = m := by rw [hx2]; omega
        rw [List.find?_cons_of_neg _ (by simpa using hxm)]

/-- **C5.**  `_detect_problem_type` picks the category whose pattern list
has the most matching patterns, first category in table order winning
ties, and falls back to `algebra` when no pattern matches: the code's
insertion-ordered `max(scores, key=scores.get)` over the positive-score
dict coincides with the spec's first-maximum selection over all counts,
on every input. -/
theorem c5_classifier_argmax (text : Str) :
    detectProblemType text = specDetect text := by
  unfold detectProblemType specDetect scoreList
  dsimp only
  by_cases hm : maxScore (countsOf text) = 0
  · rw [if_pos hm, (filter_pos_nil_iff _).mpr hm]
  · rw [if_neg hm]
    have hpos : 0 < maxScore (countsOf text) := Nat.pos_of_ne_zero hm
    cases hf : (countsOf text).filter (fun x => 0 < x.2) with
    | nil => exact absurd ((filter_pos_nil_iff _).mp hf) hm
    | cons x xs =>
      have h2 : maxScore (x :: xs) = maxScore (countsOf text) := by
        rw [← hf, maxScore_filter]
      have h3 : (countsOf text).find? (fun p => p.2 = maxScore (countsOf text)) =
          some (xs.foldl (fun best p => if best.2 < p.2 then p else best) x) := by
        rw [← find?_filter_max _ _ hpos, hf, ← h2]
        exact pyMaxKey_find xs x
      rw [h3]
      rfl

/-! ## The validator's check order on degenerate inputs (C3) -/

/-- The whitespace class, enumerated. -/
lemma pyWs_cases {c : Char} (h : pyWs c = true) :
    c = ' ' ∨ c = '\t' ∨ c = '\n' ∨ c = '\r' ∨ c = '\x0b' ∨ c = '\x0c' := by
  simpa [pyWs, or_assoc] using h

/-- Lower-casing preserves whitespace. -/
lemma pyWs_toLower {c : Char} (h : pyWs c = true) : pyWs c.toLower = true := by
  rcases pyWs_cases h with rfl | rfl | rfl | rfl | rfl | rfl <;> decide

/-- A whitespace character is not an operator character. -/
lemma opCh_of_ws {c : Char} (h : pyWs c = true) : opCh c = false := by
  rcases pyWs_cases h with rfl | rfl | rfl | rfl | rfl | rfl <;> decide

/-- Lower-casing an all-whitespace string yields an all-whitespace string. -/
lemma all_ws_pyLower {s : Str} (h : ∀ c ∈ s, pyWs c = true) :
    ∀ c ∈ pyLower s, pyWs c = true := by
  intro c hc
  rw [pyLower, List.mem_map] at hc
  obtain ⟨a, ha, rfl⟩ := hc
  exact pyWs_toLower (h a ha)

/-- A non-whitespace character does not occur in an all-whitespace string. -/
lemma not_mem_of_all_ws {s : Str} (h : ∀ c ∈ s, pyWs c = true) {c : Char}
    (hc : pyWs c = false) : c ∉ s :=
  fun hm => by rw [h c hm] at hc; cases hc

/-- An absent character has count zero. -/
lemma countCh_zero {c : Char} {s : Str} (h : c ∉ s) : countCh c s = 0 := by
  induction s with
  | nil => rfl
  | cons a r ih =>
    have ha : ¬(a = c) := fun he => h (he ▸ List.mem_cons_self a r)
    have hr : c ∉ r := fun hm => h (List.mem_cons_of_mem a hm)
    unfold countCh at ih ⊢
    rw [List.filter_cons, if_neg (by simpa using ha), ih hr]

/-- Right-stripping an all-whitespace string yields the empty string. -/
lemma pyRStrip_all_ws {s : Str} (h : ∀ c ∈ s, pyWs c = true) :
    pyRStrip s = [] := by
  induction s with
  | nil => rfl
  | cons c r ih =>
    have hr := ih (fun d hd => h d (List.mem_cons_of_mem c hd))
    simp [pyRStrip, hr, h c (List.mem_cons_self c r)]

/-- Stripping an all-whitespace string yields the empty string. -/
lemma pyStrip_all_ws {s : Str} (h : ∀ c ∈ s, pyWs c = true) :
    pyStrip s = [] := by
  unfold pyStrip
  rw [pyRStrip_all_ws h]
  rfl

/-- A pattern headed by a literal the input lacks matches nowhere. -/
lemma matchAtomsF_lit_false {c : Char} {as : List RAtom} {s : Str}
    (h : c ∉ s) (f : Nat) (prev : Option Char) :
    matchAtomsF f prev (.lit c :: as) s = false := by
  cases f with
  | zero => rfl
  | succ n =>
    cases s with
    | nil => rfl
    | cons a rest =>
      have ha : ¬(a = c) := fun he => h (he ▸ List.mem_cons_self a rest)
      simp [matchAtomsF, ha]

/-- Search with a missing-literal head fails, for any fuel and start. -/
lemma searchAux_lit_false {c : Char} {as : List RAtom} (f : Nat) :
    ∀ (prev : Option Char) (s : Str), c ∉ s →
      searchAux (.lit c :: as) f prev s = false := by
  intro prev s
  induction s generalizing prev with
  | nil =>
    intro h
    exact matchAtomsF_lit_false h f prev
  | cons a rest ih =>
    intro h
    have hr : c ∉ rest := fun hm => h (List.mem_cons_of_mem a hm)
    simp [searchAux, matchAtomsF_lit_false h f prev, ih (some a) hr]

/-- `re.search` of a pattern headed by a literal the input lacks fails. -/
lemma searchR_lit_false {c : Char} {as : List RAtom} {s : Str} (h : c ∉ s) :
    searchR (.lit c :: as) s = false :=
  searchAux_lit_false _ none s h

/-- A pattern headed by a class rejecting every input character matches
nowhere. -/
lemma matchAtomsF_cls_false {q : Char → Bool} {as : List RAtom} {s : Str}
    (h : ∀ c ∈ s, q c = false) (f : Nat) (prev : Option Char) :
    matchAtomsF f prev (.cls q :: as) s = false := by
  cases f with
  | zero => rfl
  | succ n =>
    cases s with
    | nil => rfl
    | cons a rest =>
      simp [matchAtomsF, h a (List.mem_cons_self a rest)]

/-- Search with an everywhere-rejected class head fails. -/
lemma searchAux_cls_false {q : Char → Bool} {as : List RAtom} (f : Nat) :
    ∀ (prev : Option Char) (s : Str), (∀ c ∈ s, q c = false) →
      searchAux (.cls q :: as) f prev s = false := by
  intro prev s
  induction s generalizing prev with
  | nil =>
    intro h
    exact matchAtomsF_cls_false h f prev
  | cons a rest ih =>
    intro h
    have hr : ∀ c ∈ rest, q c = false := fun d hd => h d (List.mem_cons_of_mem a hd)
    simp [searchAux, matchAtomsF_cls_false h f prev, ih (some a) hr]

/-- `re.search` of a pattern headed by an everywhere-rejected class fails. -/
lemma searchR_cls_false {q : Char → Bool} {as : List RAtom} {s : Str}
    (h : ∀ c ∈ s, q c = false) : searchR (.cls q :: as) s = false :=
  searchAux_cls_false _ none s h

/-- Counterexample to C3's claimed priority order: on an all-whitespace
input with the `integral` operation hint the validator reports a missing
differential, not the empty-input diagnostic — the integral rule runs
before the emptiness check. -/
theorem c3_counterexample :
    validateRun noParse (S " ") (S "integral") = genericMissingDiff ∧
    validateRun noParse (S " ") (S "integral") ≠ emptyEquation := by
  constructor
  · rfl
  · intro h
    rw [show validateRun noParse (S " ") (S "integral") = genericMissingDiff from rfl] at h
    exact absurd (congrArg VResult.error h) (by decide)

/-- **C3 (amended).**  The validator does not check emptiness first: its
rule order is integral, derivative, limit, equation-gated syntax, matrix,
and only then the emptiness check.  On an empty or whitespace-only input
the diagnostic therefore depends on the operation hint: the `integral`
hint yields the missing-differential error and the `limit` hint yields
the missing-limit-point error; every other hint (including `derivative`,
`equation` and `matrix`, whose remaining conditions need non-whitespace
characters) falls through to the empty-equation diagnostic. -/
theorem c3_whitespace_diagnostic (s op : Str) (h : ∀ c ∈ s, pyWs c = true) :
    validateRun noParse s op =
      (if op = S "integral" then genericMissingDiff
       else if op = S "limit" then missingLimitPoint
       else emptyEquation) := by
  have hlow := all_ws_pyLower h
  have hcs1 : containsSub (S "\\int") s = false :=
    containsSub_eq_false_of_not_mem (show '\\' ∈ S "\\int" by decide)
      (not_mem_of_all_ws h (by decide))
  have hcs2 : containsSub (S "∫") s = false :=
    containsSub_eq_false_of_not_mem (show '∫' ∈ S "∫" by decide)
      (not_mem_of_all_ws h (by decide))
  have hcs3 : containsSub (S "integrate") (pyLower s) = false :=
    containsSub_eq_false_of_not_mem (show 'i' ∈ S "integrate" by decide)
      (not_mem_of_all_ws hlow (by decide))
  have hcs4 : containsSub (S "d/d") s = false :=
    containsSub_eq_false_of_not_mem (show 'd' ∈ S "d/d" by decide)
      (not_mem_of_all_ws h (by decide))
  have hcs5 : containsSub (S "\\frac\x7bd") s = false :=
    containsSub_eq_false_of_not_mem (show '\\' ∈ S "\\frac\x7bd" by decide)
      (not_mem_of_all_ws h (by decide))
  have hcs6 : containsSub (S "derivative") (pyLower s) = false :=
    containsSub_eq_false_of_not_mem (show 'd' ∈ S "derivative" by decide)
      (not_mem_of_all_ws hlow (by decide))
  have hcs7 : containsSub (S "\\lim") s = false :=
    containsSub_eq_false_of_not_mem (show '\\' ∈ S "\\lim" by decide)
      (not_mem_of_all_ws h (by decide))
  have hcs8 : containsSub (S "lim") (pyLower s) = false :=
    containsSub_eq_false_of_not_mem (show 'l' ∈ S "lim" by decide)
      (not_mem_of_all_ws hlow (by decide))
  have hcs9 : containsSub (S "limit") (pyLower s) = false :=
    containsSub_eq_false_of_not_mem (show 'l' ∈ S "limit" by decide)
      (not_mem_of_all_ws hlow (by decide))
  have hcs10 : containsSub (S "limit(") (pyLower s) = false :=
    containsSub_eq_false_of_not_mem (show 'l' ∈ S "limit(" by decide)
      (not_mem_of_all_ws hlow (by decide))
  have hcs11 : containsSub (S "matrix") (pyLower s) = false :=
    containsSub_eq_false_of_not_mem (show 'm' ∈ S "matrix" by decide)
      (not_mem_of_all_ws hlow (by decide))
  have hcs12 : containsSub (S "\\begin\x7b") s = false :=
    containsSub_eq_false_of_not_mem (show '\\' ∈ S "\\begin\x7b" by decide)
      (not_mem_of_all_ws h (by decide))
  have hsd : searchR dPat s = false :=
    searchR_lit_false (not_mem_of_all_ws h (by decide))
  have hsl1 : searchR limPointPat1 s = false :=
    searchR_lit_false (not_mem_of_all_ws h (by decide))
  have hsl2 : searchR limPointPat2 s = false :=
    searchR_lit_false (not_mem_of_all_ws h (by decide))
  have hop1 : searchR opBeforeEqPat s = false :=
    searchR_cls_false (fun c hc => opCh_of_ws (h c hc))
  have hop2 : searchR eqBeforeOpPat s = false :=
    searchR_lit_false (not_mem_of_all_ws h (by decide))
  have hp1 : countCh '(' s = 0 := countCh_zero (not_mem_of_all_ws h (by decide))
  have hp2 : countCh ')' s = 0 := countCh_zero (not_mem_of_all_ws h (by decide))
  have hb1 : countCh '{' s = 0 := countCh_zero (not_mem_of_all_ws h (by decide))
  have hb2 : countCh '}' s = 0 := countCh_zero (not_mem_of_all_ws h (by decide))
  have hstrip : pyStrip s = [] := pyStrip_all_ws h
  by_cases hoi : op = S "integral"
  · rw [if_pos hoi]
    have hoiT : (op = S "integral") = True := eq_true hoi
    simp only [validateRun, validateE, hoiT, hsd, Bool.false_eq_true,
      not_false_eq_true, true_or, true_and, and_true]
    rfl
  · rw [if_neg hoi]
    have hoiF : (op = S "integral") = False := eq_false hoi
    by_cases hol : op = S "limit"
    · rw [if_pos hol]
      have holT : (op = S "limit") = True := eq_true hol
      simp only [validateRun, validateE, hoiF, holT, hcs1, hcs2, hcs3, hcs4,
        hcs5, hcs6, hcs7, hcs8, hcs9, hcs10, hsl1, hsl2,
        Bool.false_eq_true, false_or, or_false, or_self, false_and, and_false,
        not_false_eq_true, true_or, true_and, and_true]
      rw [if_neg not_false, if_neg not_false, if_neg not_false,
        if_neg not_false, if_pos trivial]
    · rw [if_neg hol]
      have holF : (op = S "limit") = False := eq_false hol
      simp only [validateRun, validateE, hoiF, holF, hcs1, hcs2, hcs3, hcs4,
        hcs5, hcs6, hcs7, hcs8, hcs9, hcs10, hcs11, hcs12, hsl1, hsl2,
        hop1, hop2, hp1, hp2, hb1, hb2, hstrip,
        Bool.false_eq_true, false_or, or_false, or_self, false_and, and_false,
        not_false_eq_true, not_true, ne_eq, eq_self_iff_true, not_false_iff,
        true_and, and_true]
      rw [if_neg not_false, if_neg not_false, if_neg not_false,
        if_neg not_false, if_neg not_false, if_neg not_false,
        if_neg not_false, if_neg not_false, if_neg not_false, if_pos trivial]

/-- Witness for C3 on the one-space input with the `limit` hint. -/
theorem c3_witness :
    (∀ c ∈ S " ", pyWs c = true) ∧
    validateRun noParse (S " ") (S "limit") =
      (if S "limit" = S "integral" then genericMissingDiff
       else if S "limit" = S "limit" then missingLimitPoint
       else emptyEquation) :=
  ⟨by decide, c3_whitespace_diagnostic (S " ") (S "limit") (by decide)⟩

/-! ## Normalizer idempotence (C2): rule-failure lemmas -/

/-- Every string whose characters pass a test lacks each failing
character. -/
lemma not_mem_of_all_q {q : Char → Bool} {s : Str} (h : ∀ c ∈ s, q c = true)
    {c : Char} (hc : q c = false) : c ∉ s :=
  fun hm => by rw [h c hm] at hc; cases hc

/-- A prefix's characters are characters of the string. -/
lemma isPrefixOf_mem {w t : Str} (h : w.isPrefixOf t = true) :
    ∀ c ∈ w, c ∈ t :=
  fun _ hc => (List.isPrefixOf_iff_prefix.mp h).subset hc

/-- The last element, when present, is an element. -/
lemma mem_of_getLast?_eq {l : Str} {a : Char} (h : l.getLast? = some a) :
    a ∈ l := by
  induction l with
  | nil => cases h
  | cons x xs ih =>
    cases xs with
    | nil =>
      cases h
      exact List.mem_cons_self x []
    | cons y ys =>
      rw [List.getLast?_cons_cons] at h
      exact List.mem_cons_of_mem x (ih h)

/-- Dropping preserves chains. -/
lemma chain'_drop {R : Char → Char → Prop} (n : Nat) {t : Str}
    (h : List.Chain' R t) : List.Chain' R (t.drop n) := by
  induction n with
  | zero => exact h
  | succ m ih =>
    have hd : t.drop (m + 1) = (t.drop m).tail := by
      rw [← List.drop_one, List.drop_drop, Nat.add_comm]
    rw [hd]
    exact ih.tail

/-- The absolute-value rule needs a bar. -/
lemma absTm_none {prev : Option Char} {c : Char} {rest : Str}
    (h : '|' ∉ c :: rest) : absTm prev (c :: rest) = none := by
  have hc : ¬(c = '|') := fun he => h (he ▸ List.mem_cons_self c rest)
  simp [absTm, hc]

/-- The whole-word rule needs every character of its word. -/
lemma wordTm_none {w rep : Str} {x : Char} (hx : x ∈ w) {prev : Option Char}
    {t : Str} (h : x ∉ t) : wordTm w rep prev t = none := by
  unfold wordTm
  dsimp only
  rw [if_neg (fun hc => h (isPrefixOf_mem hc.1 x hx))]

/-- The subscript rule needs an underscore. -/
lemma subscriptTm_none {prev : Option Char} {t : Str} (h : '_' ∉ t) :
    subscriptTm prev t = none := by
  unfold subscriptTm
  dsimp only
  by_cases h2 : (t.takeWhile subWordCh).length < 2
  · rw [if_pos h2]
  · rw [if_neg h2]
    have hgl : (t.takeWhile subWordCh).getLast? ≠ some '_' := fun hq =>
      h ((List.takeWhile_sublist _).subset (mem_of_getLast?_eq hq))
    rw [if_pos hgl]

/-- The exponent-brace rule needs a caret. -/
lemma expBraceTm_none {prev : Option Char} {c : Char} {rest : Str}
    (h : '^' ∉ c :: rest) : expBraceTm prev (c :: rest) = none := by
  have hc : ¬(c = '^') := fun he => h (he ▸ List.mem_cons_self c rest)
  simp [expBraceTm, hc]

/-- The fraction rule needs a backslash. -/
lemma fracTm_none {prev : Option Char} {t : Str} (h : '\\' ∉ t) :
    fracTm prev t = none := by
  unfold fracTm
  dsimp only
  rw [if_neg (fun hp => h (isPrefixOf_mem hp '\\' (by decide)))]

/-- The brace square-root rule needs a backslash. -/
lemma sqrtBraceTm_none {prev : Option Char} {t : Str} (h : '\\' ∉ t) :
    sqrtBraceTm prev t = none := by
  unfold sqrtBraceTm
  dsimp only
  rw [if_neg (fun hp => h (isPrefixOf_mem hp '\\' (by decide)))]

/-- The paren square-root rule needs an opening paren. -/
lemma sqrtParenTm_none {prev : Option Char} {t : Str} (h : '(' ∉ t) :
    sqrtParenTm prev t = none := by
  unfold sqrtParenTm
  dsimp only
  rw [if_neg (fun hp => h (isPrefixOf_mem hp '(' (by decide)))]

/-- The adjacent-group rule needs a closing paren. -/
lemma parenPairTm_none {prev : Option Char} {c : Char} {rest : Str}
    (h : ')' ∉ c :: rest) : parenPairTm prev (c :: rest) = none := by
  have hc : ¬(c = ')') := fun he => h (he ▸ List.mem_cons_self c rest)
  simp [parenPairTm, hc]

/-- The first trig-power rule needs an opening paren. -/
lemma trigPow1Tm_none {prev : Option Char} {t : Str} (h : '(' ∉ t) :
    trigPow1Tm prev t = none := by
  unfold trigPow1Tm
  dsimp only
  cases hfn : firstNameOf trigNames t with
  | none => rfl
  | some w =>
    dsimp only
    rw [if_neg (fun hp => h (List.drop_subset _ _ (isPrefixOf_mem hp '(' (by decide))))]

/-- The second trig-power rule needs two adjacent stars. -/
lemma trigPow2Tm_none {prev : Option Char} {t : Str}
    (h : List.Chain' (fun a b => ¬(a = '*' ∧ b = '*')) t) :
    trigPow2Tm prev t = none := by
  unfold trigPow2Tm
  dsimp only
  cases hfn : firstNameOf trigNames t with
  | none => rfl
  | some w =>
    dsimp only
    rw [if_neg]
    intro hp
    obtain ⟨u, hu⟩ := List.isPrefixOf_iff_prefix.mp hp
    rw [show S "**" ++ u = '*' :: '*' :: u from rfl] at hu
    have hch := chain'_drop 3 h
    rw [← hu] at hch
    exact (List.chain'_cons.mp hch).1 ⟨rfl, rfl⟩

/-- `re.sub` with the bar rule on a bar-free string. -/
lemma rewriteAll_absTm {s : Str} (h : '|' ∉ s) : rewriteAll absTm s = s :=
  @rewriteAll_id absTm (fun t => '|' ∉ t) (fun _ _ _ hP => absTm_none hP)
    (fun c _ hP hm => hP (List.mem_cons_of_mem c hm)) s h

/-- `re.sub` with a whole-word rule on a string lacking one of the word's
characters. -/
lemma rewriteAll_wordTm {w rep : Str} {x : Char} (hx : x ∈ w) {s : Str}
    (h : x ∉ s) : rewriteAll (wordTm w rep) s = s :=
  @rewriteAll_id (wordTm w rep) (fun t => x ∉ t) (fun _ _ _ hP => wordTm_none hx hP)
    (fun c _ hP hm => hP (List.mem_cons_of_mem c hm)) s h

/-- `re.sub` with the subscript rule on an underscore-free string. -/
lemma rewriteAll_subscriptTm {s : Str} (h : '_' ∉ s) :
    rewriteAll subscriptTm s = s :=
  @rewriteAll_id subscriptTm (fun t => '_' ∉ t) (fun _ _ _ hP => subscriptTm_none hP)
    (fun c _ hP hm => hP (List.mem_cons_of_mem c hm)) s h

/-- `re.sub` with the exponent-brace rule on a caret-free string. -/
lemma rewriteAll_expBraceTm {s : Str} (h : '^' ∉ s) :
    rewriteAll expBraceTm s = s :=
  @rewriteAll_id expBraceTm (fun t => '^' ∉ t) (fun _ _ _ hP => expBraceTm_none hP)
    (fun c _ hP hm => hP (List.mem_cons_of_mem c hm)) s h

/-- `re.sub` with the fraction rule on a backslash-free string. -/
lemma rewriteAll_fracTm {s : Str} (h : '\\' ∉ s) : rewriteAll fracTm s = s :=
  @rewriteAll_id fracTm (fun t => '\\' ∉ t) (fun _ _ _ hP => fracTm_none hP)
    (fun c _ hP hm => hP (List.mem_cons_of_mem c hm)) s h

/-- `re.sub` with the brace square-root rule on a backslash-free string. -/
lemma rewriteAll_sqrtBraceTm {s : Str} (h : '\\' ∉ s) :
    rewriteAll sqrtBraceTm s = s :=
  @rewriteAll_id sqrtBraceTm (fun t => '\\' ∉ t) (fun _ _ _ hP => sqrtBraceTm_none hP)
    (fun c _ hP hm => hP (List.mem_cons_of_mem c hm)) s h

/-- `re.sub` with the paren square-root rule on a paren-free string. -/
lemma rewriteAll_sqrtParenTm {s : Str} (h : '(' ∉ s) :
    rewriteAll sqrtParenTm s = s :=
  @rewriteAll_id sqrtParenTm (fun t => '(' ∉ t) (fun _ _ _ hP => sqrtParenTm_none hP)
    (fun c _ hP hm => hP (List.mem_cons_of_mem c hm)) s h

/-- `re.sub` with the adjacent-group rule on a string without closing
parens. -/
lemma rewriteAll_parenPairTm {s : Str} (h : ')' ∉ s) :
    rewriteAll parenPairTm s = s :=
  @rewriteAll_id parenPairTm (fun t => ')' ∉ t) (fun _ _ _ hP => parenPairTm_none hP)
    (fun c _ hP hm => hP (List.mem_cons_of_mem c hm)) s h

/-- `re.sub` with the first trig-power rule on a string without opening
parens. -/
lemma rewriteAll_trigPow1Tm {s : Str} (h : '(' ∉ s) :
    rewriteAll trigPow1Tm s = s :=
  @rewriteAll_id trigPow1Tm (fun t => '(' ∉ t) (fun _ _ _ hP => trigPow1Tm_none hP)
    (fun c _ hP hm => hP (List.mem_cons_of_mem c hm)) s h

/-- `re.sub` with the second trig-power rule on a string without adjacent
stars. -/
lemma rewriteAll_trigPow2Tm {s : Str}
    (h : List.Chain' (fun a b => ¬(a = '*' ∧ b = '*')) s) :
    rewriteAll trigPow2Tm s = s :=
  @rewriteAll_id trigPow2Tm (fun t => List.Chain' (fun a b => ¬(a = '*' ∧ b = '*')) t)
    (fun _ _ _ hP => trigPow2Tm_none hP) (fun _ _ hP => hP.tail) s h

/-! ## Normalizer idempotence (C2): the implicit-multiplication pass -/

/-- Induction with two-element steps, matching the recursion pattern of
`digitLetterSub` and `wsCollapse`. -/
lemma twoStepInduction {P : Str → Prop} (h0 : P []) (h1 : ∀ c, P [c])
    (h2 : ∀ c1 c2 rest, P rest → P (c2 :: rest) → P (c1 :: c2 :: rest)) :
    ∀ s, P s := by
  have key : ∀ (n : Nat) (s : Str), s.length ≤ n → P s := by
    intro n
    induction n with
    | zero =>
      intro s hs
      cases s with
      | nil => exact h0
      | cons c r => simp at hs
    | succ m ih =>
      intro s hs
      cases s with
      | nil => exact h0
      | cons c1 r =>
        cases r with
        | nil => exact h1 c1
        | cons c2 rest =>
          simp only [List.length_cons] at hs
          exact h2 c1 c2 rest (ih rest (by omega))
            (ih (c2 :: rest) (by simp only [List.length_cons]; omega))
  exact fun s => key s.length s le_rfl

/-- An ASCII letter is not a digit. -/
lemma alpha_not_digit {c : Char} (h : c.isAlpha = true) : c.isDigit = false := by
  rw [Bool.eq_false_iff]
  intro hd
  simp [Char.isAlpha, Char.isUpper, Char.isLower] at h
  simp [Char.isDigit] at hd
  rcases h with ⟨h1, _⟩ | ⟨h1, _⟩
  · exact absurd (UInt32.le_trans h1 hd.2) (by decide)
  · exact absurd (UInt32.le_trans h1 hd.2) (by decide)

/-- The implicit-multiplication pass keeps the head character. -/
lemma digitLetterSub_cons (c : Char) (r : Str) :
    ∃ t, digitLetterSub (c :: r) = c :: t := by
  cases r with
  | nil => exact ⟨[], rfl⟩
  | cons c2 rest =>
    unfold digitLetterSub
    by_cases hc : c.isDigit = true ∧ c2.isAlpha = true
    · rw [if_pos hc]; exact ⟨_, rfl⟩
    · rw [if_neg hc]; exact ⟨_, rfl⟩

/-- The implicit-multiplication pass only adds stars. -/
lemma mem_digitLetterSub : ∀ s : Str, ∀ c ∈ digitLetterSub s, c ∈ s ∨ c = '*' := by
  refine twoStepInduction ?_ ?_ ?_
  · intro d hd
    cases hd
  · intro c d hd
    exact Or.inl hd
  · intro c1 c2 rest IH1 IH2
    unfold digitLetterSub
    by_cases hc : c1.isDigit = true ∧ c2.isAlpha = true
    · rw [if_pos hc]
      intro d hd
      rcases List.mem_cons.mp hd with rfl | hd2
      · exact Or.inl (List.mem_cons_self _ _)
      rcases List.mem_cons.mp hd2 with rfl | hd3
      · exact Or.inr rfl
      rcases List.mem_cons.mp hd3 with rfl | hd4
      · exact Or.inl (List.mem_cons_of_mem _ (List.mem_cons_self _ _))
      rcases IH1 d hd4 with hm | hs
      · exact Or.inl (List.mem_cons_of_mem _ (List.mem_cons_of_mem _ hm))
      · exact Or.inr hs
    · rw [if_neg hc]
      intro d hd
      rcases List.mem_cons.mp hd with rfl | hd2
      · exact Or.inl (List.mem_cons_self _ _)
      rcases IH2 d hd2 with hm | hs
      · exact Or.inl (List.mem_cons_of_mem _ hm)
      · exact Or.inr hs

/-- The output of the implicit-multiplication pass has no digit directly
followed by a letter. -/
lemma chain'_noDL_digitLetterSub : ∀ s : Str,
    List.Chain' (fun a b => ¬(a.isDigit = true ∧ b.isAlpha = true))
      (digitLetterSub s) := by
  refine twoStepInduction ?_ ?_ ?_
  · exact List.chain'_nil
  · intro c
    exact List.chain'_singleton c
  · intro c1 c2 rest IH1 IH2
    unfold digitLetterSub
    by_cases hc : c1.isDigit = true ∧ c2.isAlpha = true
    · rw [if_pos hc]
      refine List.chain'_cons.mpr ⟨?_, ?_⟩
      · rintro ⟨_, hstar⟩
        exact absurd hstar (by decide)
      refine List.chain'_cons.mpr ⟨?_, ?_⟩
      · rintro ⟨hstar, _⟩
        exact absurd hstar (by decide)
      refine List.chain'_cons'.mpr ⟨?_, IH1⟩
      intro b _
      rintro ⟨hd, _⟩
      rw [alpha_not_digit hc.2] at hd
      cases hd
    · rw [if_neg hc]
      refine List.chain'_cons'.mpr ⟨?_, IH2⟩
      intro b hb
      obtain ⟨t, ht⟩ := digitLetterSub_cons c2 rest
      rw [ht] at hb
      simp only [List.head?_cons, Option.mem_def, Option.some.injEq] at hb
      rw [← hb]
      exact hc

/-- The output of the implicit-multiplication pass on a star-free string
has no two adjacent stars. -/
lemma chain'_noSS_digitLetterSub : ∀ s : Str, '*' ∉ s →
    List.Chain' (fun a b => ¬(a = '*' ∧ b = '*')) (digitLetterSub s) := by
  refine twoStepInduction ?_ ?_ ?_
  · intro _
    exact List.chain'_nil
  · intro c _
    exact List.chain'_singleton c
  · intro c1 c2 rest IH1 IH2 hst
    have h1 : ¬(c1 = '*') := fun he => hst (he ▸ List.mem_cons_self c1 _)
    have h2 : ¬(c2 = '*') := fun he =>
      hst (he ▸ List.mem_cons_of_mem c1 (List.mem_cons_self c2 rest))
    have hrest : '*' ∉ rest := fun hm =>
      hst (List.mem_cons_of_mem c1 (List.mem_cons_of_mem c2 hm))
    have hcrest : '*' ∉ c2 :: rest := fun hm => hst (List.mem_cons_of_mem c1 hm)
    unfold digitLetterSub
    by_cases hc : c1.isDigit = true ∧ c2.isAlpha = true
    · rw [if_pos hc]
      refine List.chain'_cons.mpr ⟨?_, ?_⟩
      · rintro ⟨he, _⟩
        exact h1 he
      refine List.chain'_cons.mpr ⟨?_, ?_⟩
      · rintro ⟨_, he⟩
        exact h2 he
      refine List.chain'_cons'.mpr ⟨?_, IH1 hrest⟩
      intro b _
      rintro ⟨he, _⟩
      exact h2 he
    · rw [if_neg hc]
      refine List.chain'_cons'.mpr ⟨?_, IH2 hcrest⟩
      intro b _
      rintro ⟨he, _⟩
      exact h1 he

/-- Inputs without digit-letter adjacency are fixed points of the
implicit-multiplication pass. -/
lemma digitLetterSub_id : ∀ s : Str,
    List.Chain' (fun a b => ¬(a.isDigit = true ∧ b.isAlpha = true)) s →
    digitLetterSub s = s := by
  refine twoStepInduction ?_ ?_ ?_
  · intro _
    rfl
  · intro c _
    rfl
  · intro c1 c2 rest _ IH2 hch
    unfold digitLetterSub
    rw [if_neg (List.chain'_cons.mp hch).1, IH2 (List.chain'_cons.mp hch).2]

/-! ## Normalizer idempotence (C2): whitespace collapse -/

/-- Collapse walks past a non-whitespace head. -/
lemma wsCollapse_cons_nonws {c : Char} (h : pyWs c = false) (r : Str) :
    wsCollapse (c :: r) = c :: wsCollapse r := by
  cases r with
  | nil => simp [wsCollapse, h]
  | cons c2 rest =>
    simp only [wsCollapse]
    rw [if_neg (by simp [h])]

/-- Collapse only adds spaces. -/
lemma mem_wsCollapse : ∀ v : Str, ∀ d ∈ wsCollapse v, d ∈ v ∨ d = ' ' := by
  refine twoStepInduction ?_ ?_ ?_
  · intro d hd
    cases hd
  · intro c d hd
    by_cases hc : pyWs c = true
    · rw [show wsCollapse [c] = [] by simp [wsCollapse, hc]] at hd
      cases hd
    · rw [show wsCollapse [c] = [c] by simp [wsCollapse, hc]] at hd
      exact Or.inl hd
  · intro c1 c2 rest IH1 IH2 d hd
    unfold wsCollapse at hd
    by_cases h1 : pyWs c1 = true
    · rw [if_pos h1] at hd
      by_cases h2 : pyWs c2 = true
      · rw [if_pos h2] at hd
        rcases IH2 d hd with hm | hs
        · exact Or.inl (List.mem_cons_of_mem c1 hm)
        · exact Or.inr hs
      · rw [if_neg h2] at hd
        rcases List.mem_cons.mp hd with rfl | hd2
        · exact Or.inr rfl
        rcases IH2 d hd2 with hm | hs
        · exact Or.inl (List.mem_cons_of_mem c1 hm)
        · exact Or.inr hs
    · rw [if_neg h1] at hd
      rcases List.mem_cons.mp hd with rfl | hd2
      · exact Or.inl (List.mem_cons_self _ _)
      rcases IH2 d hd2 with hm | hs
      · exact Or.inl (List.mem_cons_of_mem c1 hm)
      · exact Or.inr hs

/-- Every whitespace character that collapse emits is a plain space. -/
lemma wsCollapse_ws_eq_space : ∀ v : Str, ∀ d ∈ wsCollapse v,
    pyWs d = true → d = ' ' := by
  refine twoStepInduction ?_ ?_ ?_
  · intro d hd _
    cases hd
  · intro c d hd hw
    by_cases hc : pyWs c = true
    · rw [show wsCollapse [c] = [] by simp [wsCollapse, hc]] at hd
      cases hd
    · rw [show wsCollapse [c] = [c] by simp [wsCollapse, hc]] at hd
      rcases List.mem_singleton.mp hd with rfl
      exact absurd hw hc
  · intro c1 c2 rest IH1 IH2 d hd hw
    unfold wsCollapse at hd
    by_cases h1 : pyWs c1 = true
    · rw [if_pos h1] at hd
      by_cases h2 : pyWs c2 = true
      · rw [if_pos h2] at hd
        exact IH2 d hd hw
      · rw [if_neg h2] at hd
        rcases List.mem_cons.mp hd with rfl | hd2
        · rfl
        · exact IH2 d hd2 hw
    · rw [if_neg h1] at hd
      rcases List.mem_cons.mp hd with rfl | hd2
      · exact absurd hw h1
      · exact IH2 d hd2 hw

/-- Collapse never emits two adjacent whitespace characters. -/
lemma chain'_noWW_wsCollapse : ∀ v : Str,
    List.Chain' (fun a b => ¬(pyWs a = true ∧ pyWs b = true)) (wsCollapse v) := by
  refine twoStepInduction ?_ ?_ ?_
  · exact List.chain'_nil
  · intro c
    by_cases hc : pyWs c = true
    · rw [show wsCollapse [c] = [] by simp [wsCollapse, hc]]
      exact List.chain'_nil
    · rw [show wsCollapse [c] = [c] by simp [wsCollapse, hc]]
      exact List.chain'_singleton c
  · intro c1 c2 rest IH1 IH2
    unfold wsCollapse
    by_cases h1 : pyWs c1 = true
    · rw [if_pos h1]
      by_cases h2 : pyWs c2 = true
      · rw [if_pos h2]
        exact IH2
      · rw [if_neg h2]
        refine List.chain'_cons'.mpr ⟨?_, IH2⟩
        intro b hb
        have h2' : pyWs c2 = false := by rwa [Bool.not_eq_true] at h2
        rw [wsCollapse_cons_nonws h2'] at hb
        simp only [List.head?_cons, Option.mem_def, Option.some.injEq] at hb
        rw [← hb]
        rintro ⟨_, hws⟩
        exact h2 hws
    · rw [if_neg h1]
      refine List.chain'_cons'.mpr ⟨?_, IH2⟩
      intro b _
      rintro ⟨hws, _⟩
      exact h1 hws

/-- Collapse never emits a trailing whitespace character. -/
lemma wsCollapse_getLast_not_ws : ∀ v : Str, ∀ d,
    (wsCollapse v).getLast? = some d → pyWs d = false := by
  refine twoStepInduction ?_ ?_ ?_
  · intro d hd
    simp [wsCollapse] at hd
  · intro c d hd
    by_cases hc : pyWs c = true
    · rw [show wsCollapse [c] = [] by simp [wsCollapse, hc]] at hd
      simp at hd
    · rw [show wsCollapse [c] = [c] by simp [wsCollapse, hc]] at hd
      simp only [List.getLast?_singleton, Option.some.injEq] at hd
      rw [hd] at hc
      rwa [Bool.not_eq_true] at hc
  · intro c1 c2 rest IH1 IH2 d hd
    unfold wsCollapse at hd
    by_cases h1 : pyWs c1 = true
    · rw [if_pos h1] at hd
      by_cases h2 : pyWs c2 = true
      · rw [if_pos h2] at hd
        exact IH2 d hd
      · rw [if_neg h2] at hd
        have h2' : pyWs c2 = false := by rwa [Bool.not_eq_true] at h2
        rw [wsCollapse_cons_nonws h2', List.getLast?_cons_cons,
          ← wsCollapse_cons_nonws h2'] at hd
        exact IH2 d hd
    · rw [if_neg h1] at hd
      cases hw : wsCollapse (c2 :: rest) with
      | nil =>
        rw [hw] at hd
        simp only [List.getLast?_singleton, Option.some.injEq] at hd
        rw [hd] at h1
        rwa [Bool.not_eq_true] at h1
      | cons e t =>
        rw [hw, List.getLast?_cons_cons, ← hw] at hd
        exact IH2 d hd

/-- Strings with only plain single interior spaces and no trailing
whitespace are fixed points of collapse. -/
lemma wsCollapse_fix : ∀ v : Str,
    List.Chain' (fun a b => ¬(pyWs a = true ∧ pyWs b = true)) v →
    (∀ d ∈ v, pyWs d = true → d = ' ') →
    (∀ d, v.getLast? = some d → pyWs d = false) →
    wsCollapse v = v := by
  refine twoStepInduction ?_ ?_ ?_
  · intro _ _ _
    rfl
  · intro c _ _ hlast
    have hc := hlast c (by simp)
    simp [wsCollapse, hc]
  · intro c1 c2 rest IH1 IH2 hch hsp hlast
    have htail := (List.chain'_cons.mp hch).2
    have hsp2 : ∀ d ∈ c2 :: rest, pyWs d = true → d = ' ' :=
      fun d hd hw => hsp d (List.mem_cons_of_mem c1 hd) hw
    have hlast2 : ∀ d, (c2 :: rest).getLast? = some d → pyWs d = false :=
      fun d hd => hlast d (by rwa [List.getLast?_cons_cons])
    unfold wsCollapse
    by_cases h1 : pyWs c1 = true
    · have hc1 : c1 = ' ' := hsp c1 (List.mem_cons_self _ _) h1
      have hnc2 : ¬(pyWs c2 = true) := fun h2 => (List.chain'_cons.mp hch).1 ⟨h1, h2⟩
      rw [if_pos h1, if_neg hnc2, IH2 htail hsp2 hlast2, hc1]
    · rw [if_neg h1, IH2 htail hsp2 hlast2]

/-- A whitespace-headed input collapses to a space-headed (or empty)
output. -/
lemma wsCollapse_head_ws : ∀ r : Str, ∀ c, pyWs c = true →
    (wsCollapse (c :: r)).head? = some ' ' ∨ (wsCollapse (c :: r)).head? = none := by
  intro r
  induction r with
  | nil =>
    intro c hc
    right
    simp [wsCollapse, hc]
  | cons c2 rest ih =>
    intro c hc
    unfold wsCollapse
    rw [if_pos hc]
    by_cases h2 : pyWs c2 = true
    · rw [if_pos h2]
      exact ih c2 h2
    · rw [if_neg h2]
      left
      rfl

/-- Adjacent pairs in the collapse output involve a whitespace character
or were already adjacent in the input. -/
lemma chain'_wsCollapse_transfer {P : Char → Char → Prop} : ∀ v : Str,
    List.Chain' P v →
    List.Chain' (fun a b => pyWs a = true ∨ pyWs b = true ∨ P a b)
      (wsCollapse v) := by
  refine twoStepInduction ?_ ?_ ?_
  · intro _
    exact List.chain'_nil
  · intro c _
    by_cases hc : pyWs c = true
    · rw [show wsCollapse [c] = [] by simp [wsCollapse, hc]]
      exact List.chain'_nil
    · rw [show wsCollapse [c] = [c] by simp [wsCollapse, hc]]
      exact List.chain'_singleton c
  · intro c1 c2 rest IH1 IH2 hch
    have htail := (List.chain'_cons.mp hch).2
    unfold wsCollapse
    by_cases h1 : pyWs c1 = true
    · rw [if_pos h1]
      by_cases h2 : pyWs c2 = true
      · rw [if_pos h2]
        exact IH2 htail
      · rw [if_neg h2]
        refine List.chain'_cons'.mpr ⟨?_, IH2 htail⟩
        intro b _
        exact Or.inl (by decide)
    · rw [if_neg h1]
      refine List.chain'_cons'.mpr ⟨?_, IH2 htail⟩
      intro b hb
      by_cases h2 : pyWs c2 = true
      · rcases wsCollapse_head_ws rest c2 h2 with hh | hh
        · rw [hh] at hb
          simp only [Option.mem_def, Option.some.injEq] at hb
          rw [← hb]
          exact Or.inr (Or.inl (by decide))
        · rw [hh] at hb
          simp at hb
      · have h2' : pyWs c2 = false := by rwa [Bool.not_eq_true] at h2
        rw [wsCollapse_cons_nonws h2'] at hb
        simp only [List.head?_cons, Option.mem_def, Option.some.injEq] at hb
        rw [← hb]
        exact Or.inr (Or.inr (List.chain'_cons.mp hch).1)

/-- Chains survive a left strip. -/
lemma chain'_dropWhile {R : Char → Char → Prop} {p : Char → Bool} :
    ∀ t : Str, List.Chain' R t → List.Chain' R (t.dropWhile p) := by
  intro t
  induction t with
  | nil =>
    intro h
    exact h
  | cons c rest ih =>
    intro h
    rw [List.dropWhile_cons]
    by_cases hp : p c = true
    · rw [if_pos hp]
      exact ih h.tail
    · rw [if_neg hp]
      exact h

/-! ## Normalizer idempotence (C2): assembling the pipeline -/

/-- Whitespace characters are not digits. -/
lemma ws_not_digit {c : Char} (h : pyWs c = true) : c.isDigit = false := by
  rcases pyWs_cases h with rfl | rfl | rfl | rfl | rfl | rfl <;> decide

/-- Whitespace characters are not letters. -/
lemma ws_not_alpha {c : Char} (h : pyWs c = true) : c.isAlpha = false := by
  rcases pyWs_cases h with rfl | rfl | rfl | rfl | rfl | rfl <;> decide

/-- Whitespace characters are not stars. -/
lemma ws_not_star {c : Char} (h : pyWs c = true) : ¬(c = '*') := by
  rcases pyWs_cases h with rfl | rfl | rfl | rfl | rfl | rfl <;> decide

/-- The head surviving a left strip fails the strip test. -/
lemma head_dropWhile_not {p : Char → Bool} : ∀ t : Str, ∀ c r,
    t.dropWhile p = c :: r → p c = false := by
  intro t
  induction t with
  | nil =>
    intro c r hd
    cases hd
  | cons a rest ih =>
    intro c r hd
    rw [List.dropWhile_cons] at hd
    by_cases hp : p a = true
    · rw [if_pos hp] at hd
      exact ih c r hd
    · rw [if_neg hp] at hd
      cases hd
      rwa [Bool.not_eq_true] at hp

/-- `' '.join(s.split())` is idempotent. -/
lemma wsJoin_wsJoin (u : Str) : wsJoin (wsJoin u) = wsJoin u := by
  unfold wsJoin
  set w := u.dropWhile pyWs with hw
  have hdrop : (wsCollapse w).dropWhile pyWs = wsCollapse w := by
    cases hc : wsCollapse w with
    | nil => rfl
    | cons e t =>
      rw [List.dropWhile_cons]
      cases hwc : w with
      | nil =>
        rw [hwc] at hc
        cases hc
      | cons a r =>
        have ha : pyWs a = false := head_dropWhile_not u a r (by rw [← hw]; exact hwc)
        rw [hwc, wsCollapse_cons_nonws ha] at hc
        injection hc with h1 _
        rw [if_neg (by rw [← h1]; simp [ha])]
  rw [hdrop]
  exact wsCollapse_fix _ (chain'_noWW_wsCollapse w) (wsCollapse_ws_eq_space w)
    (wsCollapse_getLast_not_ws w)

/-- On the plain alphabet the whole of `_clean_latex` reduces to implicit
multiplication plus whitespace normalization: every other rule fails to
match. -/
lemma cleanLatex_plain {s : Str} (h : ∀ c ∈ s, okChar c = true) :
    cleanLatex s = wsJoin (digitLetterSub s) := by
  have hbar : '|' ∉ s := not_mem_of_all_q h (by decide)
  have hbs : '\\' ∉ s := not_mem_of_all_q h (by decide)
  have hb : 'b' ∉ s := not_mem_of_all_q h (by decide)
  have hu : 'u' ∉ s := not_mem_of_all_q h (by decide)
  have hus : '_' ∉ s := not_mem_of_all_q h (by decide)
  have hcar : '^' ∉ s := not_mem_of_all_q h (by decide)
  have hlp : '(' ∉ s := not_mem_of_all_q h (by decide)
  have hrp : ')' ∉ s := not_mem_of_all_q h (by decide)
  have hst : '*' ∉ s := not_mem_of_all_q h (by decide)
  have hdlp : '(' ∉ digitLetterSub s := fun hm => by
    rcases mem_digitLetterSub s '(' hm with hmem | he
    · exact hlp hmem
    · exact absurd he (by decide)
  have hdrp : ')' ∉ digitLetterSub s := fun hm => by
    rcases mem_digitLetterSub s ')' hm with hmem | he
    · exact hrp hmem
    · exact absurd he (by decide)
  have hdSS := chain'_noSS_digitLetterSub s hst
  unfold cleanLatex
  dsimp only
  rw [rewriteAll_absTm hbar, applyTable_id h (by decide),
    pyReplace_id (containsSub_eq_false_of_not_mem (show '\\' ∈ S "\\infty" by decide) hbs),
    rewriteAll_wordTm (show 'b' ∈ S "lambda" by decide) hb,
    rewriteAll_wordTm (show 'u' ∈ S "mu" by decide) hu,
    rewriteAll_subscriptTm hus, rewriteAll_expBraceTm hcar,
    pyReplace_id (containsSub_eq_false_of_not_mem (show '^' ∈ S "^" by decide) hcar),
    rewriteAll_fracTm hbs, rewriteAll_sqrtBraceTm hbs,
    rewriteAll_sqrtParenTm hlp, applyTable_id h (by decide),
    rewriteAll_parenPairTm hdrp, rewriteAll_trigPow1Tm hdlp,
    rewriteAll_trigPow2Tm hdSS]

/-- On the plain alphabet the full normalizer is implicit multiplication
plus whitespace normalization. -/
lemma normalize_plain {s : Str} (h : ∀ c ∈ s, okChar c = true) :
    normalize s = wsJoin (digitLetterSub s) := by
  unfold normalize convertUnicodeToLatex
  rw [applyTable_id h (by decide)]
  exact cleanLatex_plain h

/-- Characters of the one-pass normal form: the plain alphabet plus the
inserted star. -/
lemma mem_normalize_plain {s : Str} (h : ∀ c ∈ s, okChar c = true) :
    ∀ c ∈ wsJoin (digitLetterSub s), (okChar c || c = '*') = true := by
  intro c hc
  unfold wsJoin at hc
  rcases mem_wsCollapse _ c hc with hm | hsp
  · have hm2 : c ∈ digitLetterSub s := (List.dropWhile_sublist _).subset hm
    rcases mem_digitLetterSub s c hm2 with hms | hstar
    · simp [h c hms]
    · rw [hstar]
      decide
  · rw [hsp]
    decide

/-- The one-pass normal form is a fixed point of `_clean_latex`. -/
lemma cleanLatex_fix2 {s : Str} (h : ∀ c ∈ s, okChar c = true) :
    cleanLatex (wsJoin (digitLetterSub s)) = wsJoin (digitLetterSub s) := by
  have hst : '*' ∉ s := not_mem_of_all_q h (by decide)
  set t := wsJoin (digitLetterSub s) with ht
  have h2 : ∀ c ∈ t, (okChar c || c = '*') = true := mem_normalize_plain h
  have hbar : '|' ∉ t := not_mem_of_all_q h2 (by decide)
  have hbs : '\\' ∉ t := not_mem_of_all_q h2 (by decide)
  have hb : 'b' ∉ t := not_mem_of_all_q h2 (by decide)
  have hu : 'u' ∉ t := not_mem_of_all_q h2 (by decide)
  have hus : '_' ∉ t := not_mem_of_all_q h2 (by decide)
  have hcar : '^' ∉ t := not_mem_of_all_q h2 (by decide)
  have hlp : '(' ∉ t := not_mem_of_all_q h2 (by decide)
  have hrp : ')' ∉ t := not_mem_of_all_q h2 (by decide)
  have hdl : List.Chain' (fun a b => ¬(a.isDigit = true ∧ b.isAlpha = true)) t := by
    rw [ht]
    unfold wsJoin
    refine (chain'_wsCollapse_transfer _
      (@chain'_dropWhile _ pyWs _ (chain'_noDL_digitLetterSub s))).imp ?_
    intro a b hab
    rcases hab with ha | hb' | hp
    · rintro ⟨h1, _⟩
      rw [ws_not_digit ha] at h1
      cases h1
    · rintro ⟨_, h2'⟩
      rw [ws_not_alpha hb'] at h2'
      cases h2'
    · exact hp
  have hss : List.Chain' (fun a b => ¬(a = '*' ∧ b = '*')) t := by
    rw [ht]
    unfold wsJoin
    refine (chain'_wsCollapse_transfer _
      (@chain'_dropWhile _ pyWs _ (chain'_noSS_digitLetterSub s hst))).imp ?_
    intro a b hab
    rcases hab with ha | hb' | hp
    · rintro ⟨h1, _⟩
      exact ws_not_star ha h1
    · rintro ⟨_, h2'⟩
      exact ws_not_star hb' h2'
    · exact hp
  unfold cleanLatex
  dsimp only
  rw [rewriteAll_absTm hbar, applyTable_id h2 (by decide),
    pyReplace_id (containsSub_eq_false_of_not_mem (show '\\' ∈ S "\\infty" by decide) hbs),
    rewriteAll_wordTm (show 'b' ∈ S "lambda" by decide) hb,
    rewriteAll_wordTm (show 'u' ∈ S "mu" by decide) hu,
    rewriteAll_subscriptTm hus, rewriteAll_expBraceTm hcar,
    pyReplace_id (containsSub_eq_false_of_not_mem (show '^' ∈ S "^" by decide) hcar),
    rewriteAll_fracTm hbs, rewriteAll_sqrtBraceTm hbs,
    rewriteAll_sqrtParenTm hlp, applyTable_id h2 (by decide),
    digitLetterSub_id t hdl, rewriteAll_parenPairTm hrp,
    rewriteAll_trigPow1Tm hlp, rewriteAll_trigPow2Tm hss, ht]
  exact wsJoin_wsJoin _

set_option maxRecDepth 100000 in
/-- Counterexample to C2 as stated for all inputs: on `||x||` the second
normalization pass rewrites the `|Abs(x)|` produced by the first pass
again, so the normalizer is not idempotent in general. -/
theorem c2_counterexample :
    normalize (normalize (S "||x||")) ≠ normalize (S "||x||") := by decide

/-- **C2 (amended).**  Normalization is idempotent on the plain-text
alphabet (letters other than `b` and `u`, digits, spaces, and `+ = . /`):
there both passes reduce to implicit-multiplication insertion followed by
whitespace normalization, and that composite is idempotent.  On general
inputs idempotence fails (see the counterexample): rules such as the
absolute-value rewrite can match their own output. -/
theorem c2_normalize_idempotent_plain (s : Str) (h : ∀ c ∈ s, okChar c = true) :
    normalize (normalize s) = normalize s := by
  rw [normalize_plain h]
  unfold normalize convertUnicodeToLatex
  rw [applyTable_id (mem_normalize_plain h) (by decide)]
  exact cleanLatex_fix2 h

/-- Witness for C2 on a plain linear equation. -/
theorem c2_witness :
    (∀ c ∈ S "2x + 3 = 5", okChar c = true) ∧
    normalize (normalize (S "2x + 3 = 5")) = normalize (S "2x + 3 = 5") :=
  ⟨by decide, c2_normalize_idempotent_plain (S "2x + 3 = 5") (by decide)⟩

end IntelliNote
